import Mathlib

/-!
fs-reporting: the iRods report formatter.

A shallow embedding of `iRodsReport/main.go` (and of the functions of
`iRods/main.go` that differ from it), followed by theorems about it.

Modelling conventions.

* A Go `string` is a `List Char`: the inputs are text (valid UTF-8), so
  splitting and prefix tests on characters agree with Go's on bytes.
* A file read through `bufio.Scanner` is the list of lines the scanner
  yields; a file that cannot be opened is `none`.
* A Go `map[string]string` is its lookup function `Str → Option Str`.
* `outfile.WriteString` calls are collected, in order, in a list.
* The counters `lineNo` and `lineOut` are Go `int`s; inputs have fewer than
  `2^63` lines, so they are natural numbers here.
-/

set_option autoImplicit false

namespace IRodsReport

/-- A Go string. -/
abbrev Str := List Char

/-! ## Go standard library functions used by the program -/

/-- The loop of `strings.Split` for a non-empty separator: `skip` counts the
characters of a matched separator still to be dropped, `acc` holds the
current field in reverse. -/
def splitAux (sep : Str) : Str → Nat → Str → List Str
  | [], _, acc => [acc.reverse]
  | _ :: s, skip + 1, acc => splitAux sep s skip acc
  | c :: s, 0, acc =>
    if sep.isPrefixOf (c :: s) then acc.reverse :: splitAux sep s (sep.length - 1) []
    else splitAux sep s 0 (c :: acc)

/-- Go `strings.Split(s, sep)`: the fields between the non-overlapping
occurrences of `sep`, found left to right; an empty `sep` explodes `s` into
its characters. -/
def Split (s sep : Str) : List Str :=
  match sep with
  | [] => s.map fun c => [c]
  | _ :: _ => splitAux sep s 0 []

/-- Go `strings.HasPrefix(s, p)`: `len(s) >= len(p) && s[:len(p)] == p`. -/
def HasPrefix (s p : Str) : Bool :=
  decide (p.length ≤ s.length) && (s.take p.length == p)

/-- Go `strings.Join(elems, sep)`. -/
def joinWith (sep : Str) : List Str → Str
  | [] => []
  | [a] => a
  | a :: b :: rest => a ++ sep ++ joinWith sep (b :: rest)

/-- One path element of `filepath.Clean` (Unix), on the stack of the elements
kept so far (innermost first): empty and `.` elements are dropped, `..`
removes the last real element, is dropped at the root, and is kept in a
relative path that has nothing left to remove. -/
def cleanStep (rooted : Bool) (stack : List Str) (seg : Str) : List Str :=
  if seg = [] ∨ seg = ['.'] then stack
  else if seg = ['.', '.'] then
    match stack with
    | [] => if rooted then [] else [['.', '.']]
    | top :: below => if top = ['.', '.'] then seg :: top :: below else below
  else seg :: stack

/-- Go `filepath.Clean(path)` on Unix. -/
def Clean (path : Str) : Str :=
  let rooted := path.head? == some '/'
  let stack := (Split path ['/']).foldl (cleanStep rooted) []
  let out := (if rooted then ['/'] else []) ++ joinWith ['/'] stack.reverse
  if out = [] then ['.'] else out

/-- Go `filepath.Join(a, b)` on Unix: empty elements are ignored, the rest
is joined with `/` and cleaned; all empty gives the empty string. -/
def Join (a b : Str) : Str :=
  if a ≠ [] then Clean (a ++ ['/'] ++ b)
  else if b ≠ [] then Clean b
  else []

/-- The UTF-8 bytes of a character: Go `[]byte(s)` for one character. -/
def utf8Bytes (c : Char) : List Nat :=
  let n := c.toNat
  if n < 0x80 then [n]
  else if n < 0x800 then [0xC0 + n / 64, 0x80 + n % 64]
  else if n < 0x10000 then [0xE0 + n / 4096, 0x80 + n / 64 % 64, 0x80 + n % 64]
  else [0xF0 + n / 262144, 0x80 + n / 4096 % 64, 0x80 + n / 64 % 64, 0x80 + n % 64]

/-- Go `[]byte(s)`. -/
def toBytes (s : Str) : List Nat := s.flatMap utf8Bytes

/-- The alphabet of `base64.StdEncoding`. -/
def encodeStd : Str :=
  "ABCDEFGHIJKLMNOPQRSTUVWXYZabcdefghijklmnopqrstuvwxyz0123456789+/".toList

/-- The character of a 6-bit value. -/
def b64Char (i : Nat) : Char := encodeStd.getD i 'A'

/-- Go `base64.StdEncoding.EncodeToString`: three bytes give four
characters, the last group is padded with `=`. -/
def EncodeToString : List Nat → Str
  | [] => []
  | [a] => [b64Char (a / 4), b64Char (a % 4 * 16), '=', '=']
  | [a, b] => [b64Char (a / 4), b64Char (a % 4 * 16 + b / 16), b64Char (b % 16 * 4), '=']
  | a :: b :: c :: rest =>
    b64Char (a / 4) :: b64Char (a % 4 * 16 + b / 16) :: b64Char (b % 16 * 4 + c / 64)
      :: b64Char (c % 64) :: EncodeToString rest

/-! ## iRodsReport/main.go -/

/-- The `inLine` struct. -/
structure inLine where
  filename : Str
  collection : Str
  create : Str
  size : Str

/-- The `outLine` struct. -/
structure outLine where
  b64path : Str
  sizeBytes : Str
  group : Str
  ctime : Str

/-- A Go `map[string]string`, as its lookup function. -/
abbrev GroupsMap := Str → Option Str

/-- The assignment `m[k] = v`. -/
def GroupsMap.set (m : GroupsMap) (k v : Str) : GroupsMap :=
  fun x => if x = k then some v else m x

/-- The errors of the program: a file that cannot be opened or created, and
the `fmt.Errorf` of `processLine` with its message. -/
inductive Error where
  | openGroups
  | openInput
  | createOutput
  | format (msg : Str)
  deriving DecidableEq, Repr

/-- The loop of `getProjectTeamFromCollection` over `parts[i:]`: the test
`i < len(parts)-1` is that a part follows. -/
def projectTeamLoop : List Str → Str
  | [] => "hgi".toList
  | p :: rest =>
    match rest with
    | [] => "hgi".toList
    | next :: _ =>
      if p = "projects".toList then next
      else if p = "teams".toList then next
      else projectTeamLoop rest

/-- The function `getProjectTeamFromCollection`. -/
def getProjectTeamFromCollection (collection : Str) : Str :=
  projectTeamLoop (Split collection "/".toList)

/-- The function `processLine`. -/
def processLine (line delimiter : Str) (groupsMap : GroupsMap) : Except Error Str :=
  match Split line delimiter with
  | p0 :: p1 :: p2 :: p3 :: _ =>
    let l : inLine := { collection := p0, filename := p1, create := p2, size := p3 }
    let path := Join l.collection l.filename
    let codedPath := EncodeToString (toBytes path)
    let unused : Str := []
    let g := getProjectTeamFromCollection l.collection
    let lout : outLine :=
      { b64path := codedPath, sizeBytes := l.size, ctime := l.create,
        group := match groupsMap g with
          | some val => val
          | none => "xx".toList }
    let sep := "\t".toList
    let nextLine := lout.b64path ++ sep
    let nextLine := nextLine ++ lout.sizeBytes ++ sep
    let nextLine := nextLine ++ unused ++ sep
    let nextLine := nextLine ++ lout.group ++ sep
    let nextLine := nextLine ++ unused ++ sep
    let nextLine := nextLine ++ unused ++ sep
    let nextLine := nextLine ++ lout.ctime ++ sep
    let nextLine := nextLine ++ unused ++ sep
    let nextLine := nextLine ++ unused ++ sep
    let nextLine := nextLine ++ unused ++ sep
    let nextLine := nextLine ++ unused ++ sep
    .ok nextLine
  | _ => .error (.format ("Incorrect format for input line ".toList ++ line))

/-- The scanner loop of `mapProjectsToGroups`. -/
def groupsLoop : List Str → GroupsMap → GroupsMap
  | [], groups => groups
  | row :: rest, groups =>
    match Split row ":".toList with
    | p0 :: _ :: p2 :: _ => groupsLoop rest (groups.set p0 p2)
    | _ => groupsLoop rest groups

/-- The function `mapProjectsToGroups`; `groupsfile` is what opening the file
yields. -/
def mapProjectsToGroups (groupsfile : Option (List Str)) : Except Error GroupsMap :=
  match groupsfile with
  | none => .error .openGroups
  | some rows => .ok (groupsLoop rows fun _ => none)

/-- The prefix loop of `FormatFile`: `reportFile` after `for i := range prefixes`. -/
def reportFileLoop (line : Str) : List Str → Bool → Bool
  | [], reportFile => reportFile
  | p :: rest, reportFile =>
    reportFileLoop line rest (if HasPrefix line p then true else reportFile)

/-- What a run of `FormatFile` leaves: the error returned, the strings
written to the output file in order, and the two counters (logged only when
the loop runs to the end of the input). -/
structure RunResult where
  err : Option Error
  out : List Str
  lineNo : Nat
  lineOut : Nat
  deriving DecidableEq, Repr

/-- The scanner loop of `FormatFile`, from the state `(lineNo, lineOut, out)`. -/
def formatLoop (delimiter : Str) (prefixes : List Str) (groupsMap : GroupsMap) :
    List Str → Nat → Nat → List Str → RunResult
  | [], lineNo, lineOut, out => { err := none, out := out, lineNo := lineNo, lineOut := lineOut }
  | line :: rest, lineNo, lineOut, out =>
    let lineNo := lineNo + 1
    if lineNo = 1 then formatLoop delimiter prefixes groupsMap rest lineNo lineOut out
    else if !reportFileLoop line prefixes false then
      formatLoop delimiter prefixes groupsMap rest lineNo lineOut out
    else
      match processLine line delimiter groupsMap with
      | .error e => { err := some e, out := out, lineNo := lineNo, lineOut := lineOut }
      | .ok nextLine =>
        formatLoop delimiter prefixes groupsMap rest lineNo (lineOut + 1)
          (out ++ [nextLine ++ "\n".toList])

/-- The function `FormatFile`; `groupsfile` and `infile` are what opening the
two files yields, `outfileOk` is whether the output file can be created. -/
def FormatFile (infile : Option (List Str)) (outfileOk : Bool) (groupsfile : Option (List Str))
    (delimiter : Str) (prefixes : List Str) : RunResult :=
  match mapProjectsToGroups groupsfile with
  | .error e => { err := some e, out := [], lineNo := 0, lineOut := 0 }
  | .ok groupsMap =>
    match infile with
    | none => { err := some .openInput, out := [], lineNo := 0, lineOut := 0 }
    | some lines =>
      if !outfileOk then { err := some .createOutput, out := [], lineNo := 0, lineOut := 0 }
      else formatLoop delimiter prefixes groupsMap lines 0 0 []

/-- The function `main` of iRodsReport: the three flags name the files, given
here by what opening them yields; the delimiter and the two prefixes are
fixed. The result is what the run of `FormatFile` leaves. -/
def main (infile : Option (List Str)) (outfileOk : Bool) (groupsfile : Option (List Str)) :
    RunResult :=
  FormatFile infile outfileOk groupsfile "???".toList
    ["/humgen/projects".toList, "/humgen/teams".toList]

/-! ## iRods/main.go, the first implementation

Its `inLine` struct and the loop of its `mapProjectsToGroups` are those of
iRodsReport, character for character; what it prints to standard output is
left out. -/

namespace IRods

/-- The `outLine` struct of the first implementation. -/
structure outLine where
  b64path : Str
  sizeBytes : Str
  user : Str
  group : Str
  atime : Str
  mtime : Str
  ctime : Str
  protectionmode : Str
  a : Str
  b : Str
  c : Str

/-- The loop of `getProjectFromCollection` over `parts[i:]`. -/
def projectLoop : List Str → Str
  | [] => "hgi".toList
  | p :: rest =>
    match rest with
    | [] => "hgi".toList
    | next :: _ =>
      if p = "projects".toList then next
      else projectLoop rest

/-- The function `getProjectFromCollection`. -/
def getProjectFromCollection (collection : Str) : Str :=
  projectLoop (Split collection "/".toList)

/-- The function `processLine` of the first implementation: `lout` starts as
the zero value `outLine{}`, all fields empty, and `mtime` is never assigned,
so it stays empty. -/
def processLine (line delimiter : Str) (groupsMap : GroupsMap) : Except Error Str :=
  match Split line delimiter with
  | p0 :: p1 :: p2 :: p3 :: _ =>
    let l : inLine := { collection := p0, filename := p1, create := p2, size := p3 }
    let path := Join l.collection l.filename
    let codedPath := EncodeToString (toBytes path)
    let g := getProjectFromCollection l.collection
    let lout : outLine :=
      { a := "0".toList, b := "0".toList, c := "0".toList, atime := "0".toList,
        protectionmode := "f".toList, b64path := codedPath, sizeBytes := l.size,
        ctime := l.create, user := "user".toList,
        group := match groupsMap g with
          | some val => val
          | none => "xx".toList,
        mtime := [] }
    let sep := "\t".toList
    let nextLine := lout.b64path ++ sep
    let nextLine := nextLine ++ lout.sizeBytes ++ sep
    let nextLine := nextLine ++ lout.user ++ sep
    let nextLine := nextLine ++ lout.group ++ sep
    let nextLine := nextLine ++ lout.atime ++ sep
    let nextLine := nextLine ++ lout.mtime ++ sep
    let nextLine := nextLine ++ lout.ctime ++ sep
    let nextLine := nextLine ++ lout.protectionmode ++ sep
    let nextLine := nextLine ++ lout.a ++ sep
    let nextLine := nextLine ++ lout.b ++ sep
    let nextLine := nextLine ++ lout.c ++ sep
    .ok nextLine
  | _ => .error (.format ("Incorrect format for input line ".toList ++ line))

/-- The function `mapProjectsToGroups` of the first implementation. -/
def mapProjectsToGroups (groupsfile : Option (List Str)) : Except Error GroupsMap :=
  match groupsfile with
  | none => .error .openGroups
  | some rows => .ok (groupsLoop rows fun _ => none)

/-- What a run of the first `FormatFile` leaves: the error returned, the
strings written to the output file in order, and the counter `lineNo`. -/
structure RunResult where
  err : Option Error
  out : List Str
  lineNo : Nat
  deriving DecidableEq, Repr

/-- The scanner loop of the first `FormatFile`, from the state `(lineNo, out)`. -/
def formatLoop (delimiter : Str) (groupsMap : GroupsMap) :
    List Str → Nat → List Str → RunResult
  | [], lineNo, out => { err := none, out := out, lineNo := lineNo }
  | line :: rest, lineNo, out =>
    let lineNo := lineNo + 1
    if lineNo = 1 then formatLoop delimiter groupsMap rest lineNo out
    else
      match processLine line delimiter groupsMap with
      | .error e => { err := some e, out := out, lineNo := lineNo }
      | .ok nextLine => formatLoop delimiter groupsMap rest lineNo (out ++ [nextLine ++ "\n".toList])

/-- The function `FormatFile` of the first implementation, which has no
prefix list. -/
def FormatFile (infile : Option (List Str)) (outfileOk : Bool) (groupsfile : Option (List Str))
    (delimiter : Str) : RunResult :=
  match mapProjectsToGroups groupsfile with
  | .error e => { err := some e, out := [], lineNo := 0 }
  | .ok groupsMap =>
    match infile with
    | none => { err := some .openInput, out := [], lineNo := 0 }
    | some lines =>
      if !outfileOk then { err := some .createOutput, out := [], lineNo := 0 }
      else formatLoop delimiter groupsMap lines 0 []

end IRods

/-! ## Predicates used to state the properties -/

/-- A marker segment: `projects` or `teams`. -/
def isMarker (s : Str) : Prop := s = "projects".toList ∨ s = "teams".toList

instance (s : Str) : Decidable (isMarker s) := by
  unfold isMarker
  exact inferInstance

/-- The line starts with at least one of the prefixes. -/
def startsWithOneOf (prefixes : List Str) (line : Str) : Prop :=
  ∃ p ∈ prefixes, p <+: line

instance (prefixes : List Str) (line : Str) : Decidable (startsWithOneOf prefixes line) := by
  unfold startsWithOneOf
  exact inferInstance

/-- The row `processLine` returns for a line, paired with the line. -/
def rowOf (delimiter : Str) (groupsMap : GroupsMap) (line row : Str) : Prop :=
  processLine line delimiter groupsMap = .ok row

/-- The line of the group file has more than 2 colon-separated fields and
field 0 is `n`. -/
def definesGroup (row n : Str) : Prop :=
  2 < (Split row ":".toList).length ∧ (Split row ":".toList).getD 0 [] = n

instance (row n : Str) : Decidable (definesGroup row n) := by
  unfold definesGroup
  exact inferInstance

/-- The collection field of a line: the first field of its split. -/
def collectionOf (line delimiter : Str) : Str := (Split line delimiter).getD 0 []

/-- The group value resolved for a collection: the table's value for its
project or team, `xx` when the table has none. -/
def groupOf (groupsMap : GroupsMap) (collection : Str) : Str :=
  match groupsMap (getProjectTeamFromCollection collection) with
  | some val => val
  | none => "xx".toList

/-- The row the first implementation's `processLine` returns for a line,
paired with the line. -/
def rowOfFirst (delimiter : Str) (groupsMap : GroupsMap) (line row : Str) : Prop :=
  IRods.processLine line delimiter groupsMap = .ok row

/-! ## Identifier derivation -/

theorem projectTeamLoop_first (parts : List Str) (i : Nat) (h : i + 1 < parts.length)
    (hm : isMarker (parts.getD i [])) (hmin : ∀ j, j < i → ¬ isMarker (parts.getD j [])) :
    projectTeamLoop parts = parts.getD (i + 1) [] := by
  induction parts generalizing i with
  | nil => simp at h
  | cons p rest ih =>
    cases rest with
    | nil => simp at h
    | cons next tl =>
      cases i with
      | zero =>
        simp only [List.getD_cons_zero] at hm
        rcases hm with hm | hm
        · simp [projectTeamLoop, hm]
        · by_cases hp : p = "projects".toList <;> simp [projectTeamLoop, hm, hp]
      | succ k =>
        have h0 : ¬ isMarker p := by simpa using hmin 0 (Nat.succ_pos k)
        have hp : p ≠ "projects".toList := fun e => h0 (Or.inl e)
        have ht : p ≠ "teams".toList := fun e => h0 (Or.inr e)
        have hk : k + 1 < (next :: tl).length := by simpa using h
        have hmk : isMarker ((next :: tl).getD k []) := by simpa using hm
        have hmink : ∀ j, j < k → ¬ isMarker ((next :: tl).getD j []) := by
          intro j hj
          simpa using hmin (j + 1) (Nat.succ_lt_succ hj)
        have := ih k hk hmk hmink
        simp only [projectTeamLoop, hp, ht, if_false]
        simpa using this

theorem projectTeamLoop_none (parts : List Str)
    (h : ∀ i, i + 1 < parts.length → ¬ isMarker (parts.getD i [])) :
    projectTeamLoop parts = "hgi".toList := by
  induction parts with
  | nil => rfl
  | cons p rest ih =>
    cases rest with
    | nil => rfl
    | cons next tl =>
      have h0 : ¬ isMarker p := by simpa using h 0 (by simp)
      have hp : p ≠ "projects".toList := fun e => h0 (Or.inl e)
      have ht : p ≠ "teams".toList := fun e => h0 (Or.inr e)
      have hrest : ∀ i, i + 1 < (next :: tl).length → ¬ isMarker ((next :: tl).getD i []) := by
        intro i hi
        simpa using h (i + 1) (by simpa using hi)
      simp only [projectTeamLoop, hp, ht, if_false]
      exact ih hrest

/-- C1: with the collection split on `/` into segments, the result of
`getProjectTeamFromCollection` is the segment after the first marker segment
(`projects` or `teams`) that is not the last segment, and `hgi` when no
segment but possibly the last is a marker. -/
theorem getProjectTeamFromCollection_spec (c : Str) :
    (∀ i, i + 1 < (Split c "/".toList).length →
        isMarker ((Split c "/".toList).getD i []) →
        (∀ j, j < i → ¬ isMarker ((Split c "/".toList).getD j [])) →
        getProjectTeamFromCollection c = (Split c "/".toList).getD (i + 1) []) ∧
    ((∀ i, i + 1 < (Split c "/".toList).length →
        ¬ isMarker ((Split c "/".toList).getD i [])) →
      getProjectTeamFromCollection c = "hgi".toList) :=
  ⟨fun i h hm hmin => projectTeamLoop_first _ i h hm hmin,
   fun h => projectTeamLoop_none _ h⟩

/-- The four examples of C1, each obtained from the theorem. -/
theorem getProjectTeamFromCollection_spec_witness :
    getProjectTeamFromCollection "/humgen/projects/myproj/run1".toList = "myproj".toList ∧
    getProjectTeamFromCollection "/humgen/teams/teamA/data".toList = "teamA".toList ∧
    getProjectTeamFromCollection "/humgen/other/x".toList = "hgi".toList ∧
    getProjectTeamFromCollection "/a/projects".toList = "hgi".toList :=
  ⟨((getProjectTeamFromCollection_spec "/humgen/projects/myproj/run1".toList).1 2
      (by decide) (by decide) (by decide)).trans (by decide),
   ((getProjectTeamFromCollection_spec "/humgen/teams/teamA/data".toList).1 2
      (by decide) (by decide) (by decide)).trans (by decide),
   (getProjectTeamFromCollection_spec "/humgen/other/x".toList).2 (by
      intro i hi
      have h4 : i + 1 < 4 := hi
      have h3 : i < 3 := Nat.lt_of_succ_lt_succ h4
      clear hi h4
      interval_cases i <;> decide),
   (getProjectTeamFromCollection_spec "/a/projects".toList).2 (by
      intro i hi
      have h3 : i + 1 < 3 := hi
      have h2 : i < 2 := Nat.lt_of_succ_lt_succ h3
      clear hi h3
      interval_cases i <;> decide)⟩

/-! ## The row built by processLine -/

theorem processLine_ok (line delimiter : Str) (groupsMap : GroupsMap)
    (collection filename createTime size : Str) (more : List Str)
    (h : Split line delimiter = collection :: filename :: createTime :: size :: more) :
    processLine line delimiter groupsMap =
      .ok (EncodeToString (toBytes (Join collection filename)) ++ ['\t'] ++ size ++ ['\t']
        ++ ['\t'] ++ (match groupsMap (getProjectTeamFromCollection collection) with
            | some val => val
            | none => "xx".toList) ++ ['\t'] ++ ['\t'] ++ ['\t'] ++ createTime
        ++ ['\t'] ++ ['\t'] ++ ['\t'] ++ ['\t'] ++ ['\t']) := by
  have ht : "\t".toList = ['\t'] := rfl
  simp [processLine, h, ht]

theorem processLine_short (line delimiter : Str) (groupsMap : GroupsMap)
    (h : (Split line delimiter).length < 4) :
    processLine line delimiter groupsMap =
      .error (.format ("Incorrect format for input line ".toList ++ line)) := by
  unfold processLine
  split
  · next heq =>
    rw [heq] at h
    simp only [List.length_cons] at h
    omega
  · rfl

theorem split_of_length (parts : List Str) (h : ¬ parts.length < 4) :
    ∃ p0 p1 p2 p3 more, parts = p0 :: p1 :: p2 :: p3 :: more := by
  match parts, h with
  | p0 :: p1 :: p2 :: p3 :: more, _ => exact ⟨p0, p1, p2, p3, more, rfl⟩
  | [], h => simp at h
  | [_], h => simp at h
  | [_, _], h => simp at h
  | [_, _, _], h => simp at h

/-- C6: `processLine` returns an error exactly when the line splits into
fewer than 4 fields; the error then carries the message
`Incorrect format for input line ` followed by the raw line, and otherwise a
row is returned. -/
theorem processLine_error_iff (line delimiter : Str) (groupsMap : GroupsMap) :
    ((∃ e, processLine line delimiter groupsMap = .error e) ↔
        (Split line delimiter).length < 4) ∧
    ((Split line delimiter).length < 4 →
        processLine line delimiter groupsMap =
          .error (.format ("Incorrect format for input line ".toList ++ line))) ∧
    (¬ (Split line delimiter).length < 4 →
        ∃ row, processLine line delimiter groupsMap = .ok row) := by
  refine ⟨⟨?_, ?_⟩, processLine_short line delimiter groupsMap, ?_⟩
  · rintro ⟨e, he⟩
    by_contra hlen
    obtain ⟨p0, p1, p2, p3, more, hs⟩ := split_of_length _ hlen
    rw [processLine_ok line delimiter groupsMap p0 p1 p2 p3 more hs] at he
    cases he
  · intro hlen
    exact ⟨_, processLine_short line delimiter groupsMap hlen⟩
  · intro hlen
    obtain ⟨p0, p1, p2, p3, more, hs⟩ := split_of_length _ hlen
    exact ⟨_, processLine_ok line delimiter groupsMap p0 p1 p2 p3 more hs⟩

/-- A malformed and a well-formed line, through the theorem of C6. -/
theorem processLine_error_iff_witness :
    processLine "a>>b>>c".toList ">>".toList (fun _ => none) =
        .error (.format "Incorrect format for input line a>>b>>c".toList) ∧
    ∃ row, processLine "a>>b>>c>>d".toList ">>".toList (fun _ => none) = .ok row :=
  ⟨(processLine_error_iff "a>>b>>c".toList ">>".toList (fun _ => none)).2.1 (by decide),
   (processLine_error_iff "a>>b>>c>>d".toList ">>".toList (fun _ => none)).2.2 (by decide)⟩

/-! ## Splitting a row on the tab character -/

theorem splitAux_single_notin (t : Char) (a acc : Str) (h : t ∉ a) :
    splitAux [t] a 0 acc = [acc.reverse ++ a] := by
  induction a generalizing acc with
  | nil => simp [splitAux]
  | cons c a ih =>
    have hc : t ≠ c := fun e => h (by simp [e])
    have ha : t ∉ a := fun e => h (List.mem_cons_of_mem _ e)
    simp [splitAux, List.isPrefixOf, hc, ih _ ha]

theorem splitAux_single_field (t : Char) (a rest acc : Str) (h : t ∉ a) :
    splitAux [t] (a ++ t :: rest) 0 acc = (acc.reverse ++ a) :: splitAux [t] rest 0 [] := by
  induction a generalizing acc with
  | nil => simp [splitAux, List.isPrefixOf]
  | cons c a ih =>
    have hc : t ≠ c := fun e => h (by simp [e])
    have ha : t ∉ a := fun e => h (List.mem_cons_of_mem _ e)
    simp [splitAux, List.isPrefixOf, hc, ih _ ha]

theorem b64Char_ne_tab (i : Nat) : b64Char i ≠ '\t' := by
  unfold b64Char
  intro h
  have hmem : encodeStd.getD i 'A' ∈ 'A' :: encodeStd := by
    by_cases hi : i < encodeStd.length
    · rw [List.getD_eq_getElem _ _ hi]
      exact List.mem_cons_of_mem _ (List.getElem_mem hi)
    · rw [List.getD_eq_default _ _ (Nat.le_of_not_lt hi)]
      exact List.mem_cons_self _ _
  rw [h] at hmem
  revert hmem
  decide

theorem tab_not_mem_EncodeToString (bytes : List Nat) : '\t' ∉ EncodeToString bytes := by
  induction bytes using EncodeToString.induct with
  | case1 => simp [EncodeToString]
  | case2 a =>
    simp [EncodeToString, (b64Char_ne_tab _).symm]
  | case3 a b =>
    simp [EncodeToString, (b64Char_ne_tab _).symm]
  | case4 a b c rest ih =>
    simp [EncodeToString, (b64Char_ne_tab _).symm, ih]

theorem Split_tab_field (a rest : Str) (h : '\t' ∉ a) :
    Split (a ++ '\t' :: rest) ['\t'] = a :: Split rest ['\t'] := by
  simp [Split, splitAux_single_field _ a rest [] h]

theorem Split_tab_empty (rest : Str) :
    Split ('\t' :: rest) ['\t'] = [] :: Split rest ['\t'] :=
  Split_tab_field [] rest (by simp)

theorem Split_tab_nil : Split [] ['\t'] = [[]] := rfl

theorem Split_tab_row (f0 f1 f3 f6 : Str) (h0 : '\t' ∉ f0) (h1 : '\t' ∉ f1)
    (h3 : '\t' ∉ f3) (h6 : '\t' ∉ f6) :
    Split (f0 ++ ['\t'] ++ f1 ++ ['\t'] ++ ['\t'] ++ f3 ++ ['\t'] ++ ['\t'] ++ ['\t'] ++ f6
        ++ ['\t'] ++ ['\t'] ++ ['\t'] ++ ['\t'] ++ ['\t']) ['\t']
      = [f0, f1, [], f3, [], [], f6, [], [], [], [], []] := by
  simp only [List.append_assoc, List.singleton_append, List.cons_append, List.nil_append]
  rw [Split_tab_field _ _ h0, Split_tab_field _ _ h1, Split_tab_empty, Split_tab_field _ _ h3,
    Split_tab_empty, Split_tab_empty, Split_tab_field _ _ h6, Split_tab_empty, Split_tab_empty,
    Split_tab_empty, Split_tab_empty, Split_tab_nil]

/-- C2, as the code has it: when the size and createTime fields and the
group value contain no tab, the row split on the tab character has exactly 12
fields, the eleven values followed by an empty field after the closing tab,
and the field at index 6 is the createTime field verbatim. -/
theorem processLine_row_shape (line delimiter : Str) (groupsMap : GroupsMap)
    (collection filename createTime size : Str) (more : List Str)
    (h : Split line delimiter = collection :: filename :: createTime :: size :: more)
    (hs : '\t' ∉ size) (hc : '\t' ∉ createTime)
    (hg : ∀ val, groupsMap (getProjectTeamFromCollection collection) = some val → '\t' ∉ val) :
    ∃ row, processLine line delimiter groupsMap = .ok row ∧
      (Split row "\t".toList).length = 12 ∧
      (Split row "\t".toList).getD 6 [] = createTime ∧
      (Split row "\t".toList).getD 11 ['x'] = [] := by
  refine ⟨_, processLine_ok line delimiter groupsMap collection filename createTime size more h, ?_⟩
  have hG : '\t' ∉ (match groupsMap (getProjectTeamFromCollection collection) with
      | some val => val
      | none => "xx".toList) := by
    cases hv : groupsMap (getProjectTeamFromCollection collection) with
    | none => decide
    | some val => exact hg val hv
  have ht : "\t".toList = ['\t'] := rfl
  rw [ht, Split_tab_row _ _ _ _ (tab_not_mem_EncodeToString _) hs hG hc]
  exact ⟨rfl, rfl, rfl⟩

/-- The example line of the specification, through the theorem of C2. -/
theorem processLine_row_shape_witness :
    ∃ row, processLine "/humgen/projects/proj1>>file.txt>>1600000000>>2048".toList ">>".toList
        (fun _ => none) = .ok row ∧
      (Split row "\t".toList).length = 12 ∧
      (Split row "\t".toList).getD 6 [] = "1600000000".toList ∧
      (Split row "\t".toList).getD 11 ['x'] = [] :=
  processLine_row_shape "/humgen/projects/proj1>>file.txt>>1600000000>>2048".toList ">>".toList
    (fun _ => none) "/humgen/projects/proj1".toList "file.txt".toList "1600000000".toList
    "2048".toList [] (by decide) (by decide) (by decide) (by intro val hv; cases hv)

/-- C2 as stated fails: the row of the specification's example line, split on
the tab character, has 12 fields and not 11; and a createTime field that
contains a tab gives 13 fields, the one at index 6 not being the createTime. -/
theorem processLine_row_not_eleven :
    (∃ row, processLine "/humgen/projects/proj1>>file.txt>>1600000000>>2048".toList
        ">>".toList (fun _ => none) = .ok row ∧
      (Split row "\t".toList).length = 12 ∧ (Split row "\t".toList).length ≠ 11) ∧
    (∃ row, processLine "a>>b>>c\td>>e".toList ">>".toList (fun _ => none) = .ok row ∧
      Split "a>>b>>c\td>>e".toList ">>".toList =
        ["a".toList, "b".toList, "c\td".toList, "e".toList] ∧
      (Split row "\t".toList).length = 13 ∧
      (Split row "\t".toList).getD 6 [] ≠ "c\td".toList) :=
  ⟨⟨_, rfl, by decide, by decide⟩, ⟨_, rfl, by decide, by decide, by decide⟩⟩

/-- C4, as the code has it: for a line that splits into collection, filename,
createTime, size (and possibly more fields), the row is the base64 of the
joined path, the size, an empty field, the group, two empty fields, the
createTime and four empty fields, each of the eleven followed by a tab, so
five tabs follow the createTime; when the line passes the prefix filter the
loop of FormatFile writes that row and a newline and goes on. -/
theorem processLine_row_layout (line delimiter : Str) (groupsMap : GroupsMap)
    (collection filename createTime size : Str) (more : List Str)
    (prefixes rest : List Str) (lineNo lineOut : Nat) (out : List Str)
    (h : Split line delimiter = collection :: filename :: createTime :: size :: more)
    (hno : lineNo ≠ 0) (hrep : reportFileLoop line prefixes false = true) :
    ∃ group, processLine line delimiter groupsMap =
        .ok (EncodeToString (toBytes (Join collection filename)) ++ "\t".toList ++ size
          ++ "\t".toList ++ [] ++ "\t".toList ++ group ++ "\t\t\t".toList ++ createTime
          ++ "\t\t\t\t\t".toList) ∧
      formatLoop delimiter prefixes groupsMap (line :: rest) lineNo lineOut out =
        formatLoop delimiter prefixes groupsMap rest (lineNo + 1) (lineOut + 1)
          (out ++ [EncodeToString (toBytes (Join collection filename)) ++ "\t".toList
            ++ size ++ "\t".toList ++ [] ++ "\t".toList ++ group ++ "\t\t\t".toList
            ++ createTime ++ "\t\t\t\t\t".toList ++ "\n".toList]) := by
  have h1 : "\t".toList = ['\t'] := rfl
  have h3 : "\t\t\t".toList = ['\t', '\t', '\t'] := rfl
  have h5 : "\t\t\t\t\t".toList = ['\t', '\t', '\t', '\t', '\t'] := rfl
  have hrow := processLine_ok line delimiter groupsMap collection filename createTime size more h
  refine ⟨(match groupsMap (getProjectTeamFromCollection collection) with
      | some val => val
      | none => "xx".toList), ?_, ?_⟩
  · rw [hrow, h1, h3, h5]
    simp
  · rw [formatLoop]
    simp only [Nat.add_eq_right, hno, if_false, hrep, hrow, h1, h3, h5]
    simp

/-- The example line of the specification, through the theorem of C4: the row
ends with five tabs after the createTime. -/
theorem processLine_row_layout_witness :
    ∃ group, processLine "/humgen/projects/proj1>>file.txt>>1600000000>>2048".toList
        ">>".toList (fun _ => none) =
        .ok (EncodeToString (toBytes (Join "/humgen/projects/proj1".toList "file.txt".toList))
          ++ "\t".toList ++ "2048".toList ++ "\t".toList ++ [] ++ "\t".toList ++ group
          ++ "\t\t\t".toList ++ "1600000000".toList ++ "\t\t\t\t\t".toList) ∧
      formatLoop ">>".toList ["/humgen".toList] (fun _ => none)
          ["/humgen/projects/proj1>>file.txt>>1600000000>>2048".toList] 1 0 [] =
        formatLoop ">>".toList ["/humgen".toList] (fun _ => none) [] (1 + 1) (0 + 1)
          ([] ++ [EncodeToString (toBytes (Join "/humgen/projects/proj1".toList
            "file.txt".toList)) ++ "\t".toList ++ "2048".toList ++ "\t".toList ++ []
            ++ "\t".toList ++ group ++ "\t\t\t".toList ++ "1600000000".toList
            ++ "\t\t\t\t\t".toList ++ "\n".toList]) :=
  processLine_row_layout "/humgen/projects/proj1>>file.txt>>1600000000>>2048".toList
    ">>".toList (fun _ => none) "/humgen/projects/proj1".toList "file.txt".toList
    "1600000000".toList "2048".toList [] ["/humgen".toList] [] 1 0 []
    (by decide) (by decide) (by decide)

/-- C4 as stated fails: the row of the specification's example line is not the
claimed string with four tabs after the createTime; it has five. -/
theorem processLine_row_not_four_tabs :
    processLine "/humgen/projects/proj1>>file.txt>>1600000000>>2048".toList ">>".toList
        (fun _ => none) ≠
      .ok (EncodeToString (toBytes "/humgen/projects/proj1/file.txt".toList)
        ++ "\t2048\t\t".toList ++ "xx".toList ++ "\t\t\t1600000000\t\t\t\t".toList) ∧
    processLine "/humgen/projects/proj1>>file.txt>>1600000000>>2048".toList ">>".toList
        (fun _ => none) =
      .ok ("L2h1bWdlbi9wcm9qZWN0cy9wcm9qMS9maWxlLnR4dA==".toList
        ++ "\t2048\t\t".toList ++ "xx".toList ++ "\t\t\t1600000000\t\t\t\t\t".toList) := by
  have hv : processLine "/humgen/projects/proj1>>file.txt>>1600000000>>2048".toList
      ">>".toList (fun _ => none) =
      .ok ("L2h1bWdlbi9wcm9qZWN0cy9wcm9qMS9maWxlLnR4dA==".toList
        ++ "\t2048\t\t".toList ++ "xx".toList ++ "\t\t\t1600000000\t\t\t\t\t".toList) := by
    rfl
  refine ⟨?_, hv⟩
  rw [hv]
  intro heq
  have hl := Except.ok.inj heq
  revert hl
  decide

/-- C9: the group value of the row is the table's value for the key
`getProjectTeamFromCollection collection` when the key is present, and `xx`
when it is absent. -/
theorem processLine_group (line delimiter : Str) (groupsMap : GroupsMap)
    (collection filename createTime size : Str) (more : List Str)
    (h : Split line delimiter = collection :: filename :: createTime :: size :: more) :
    (∀ val, groupsMap (getProjectTeamFromCollection collection) = some val →
      processLine line delimiter groupsMap =
        .ok (EncodeToString (toBytes (Join collection filename)) ++ "\t".toList ++ size
          ++ "\t".toList ++ "\t".toList ++ val ++ "\t".toList ++ "\t".toList ++ "\t".toList
          ++ createTime ++ "\t\t\t\t\t".toList)) ∧
    (groupsMap (getProjectTeamFromCollection collection) = none →
      processLine line delimiter groupsMap =
        .ok (EncodeToString (toBytes (Join collection filename)) ++ "\t".toList ++ size
          ++ "\t".toList ++ "\t".toList ++ "xx".toList ++ "\t".toList ++ "\t".toList
          ++ "\t".toList ++ createTime ++ "\t\t\t\t\t".toList)) := by
  have h1 : "\t".toList = ['\t'] := rfl
  have h5 : "\t\t\t\t\t".toList = ['\t', '\t', '\t', '\t', '\t'] := rfl
  have hrow := processLine_ok line delimiter groupsMap collection filename createTime size more h
  constructor
  · intro val hv
    rw [hrow, hv, h1, h5]
    simp
  · intro hv
    rw [hrow, hv, h1, h5]
    simp

/-- The table of `root:x:0:` and `hgi:x:1313:members`, through the theorem of
C9: a collection without marker resolves to `1313`, and the project `nosuch`
to `xx`. -/
theorem processLine_group_witness :
    processLine "/humgen/other>>f>>1>>2".toList ">>".toList
        (groupsLoop ["root:x:0:".toList, "hgi:x:1313:members".toList] fun _ => none) =
      .ok (EncodeToString (toBytes (Join "/humgen/other".toList "f".toList)) ++ "\t".toList
        ++ "2".toList ++ "\t".toList ++ "\t".toList ++ "1313".toList ++ "\t".toList
        ++ "\t".toList ++ "\t".toList ++ "1".toList ++ "\t\t\t\t\t".toList) ∧
    processLine "/humgen/projects/nosuch>>f>>1>>2".toList ">>".toList
        (groupsLoop ["root:x:0:".toList, "hgi:x:1313:members".toList] fun _ => none) =
      .ok (EncodeToString (toBytes (Join "/humgen/projects/nosuch".toList "f".toList))
        ++ "\t".toList ++ "2".toList ++ "\t".toList ++ "\t".toList ++ "xx".toList
        ++ "\t".toList ++ "\t".toList ++ "\t".toList ++ "1".toList
        ++ "\t\t\t\t\t".toList) :=
  ⟨(processLine_group "/humgen/other>>f>>1>>2".toList ">>".toList
      (groupsLoop ["root:x:0:".toList, "hgi:x:1313:members".toList] fun _ => none)
      "/humgen/other".toList "f".toList "1".toList "2".toList [] (by decide)).1
      "1313".toList (by decide),
   (processLine_group "/humgen/projects/nosuch>>f>>1>>2".toList ">>".toList
      (groupsLoop ["root:x:0:".toList, "hgi:x:1313:members".toList] fun _ => none)
      "/humgen/projects/nosuch".toList "f".toList "1".toList "2".toList [] (by decide)).2
      (by decide)⟩

/-! ## The prefix filter -/

theorem HasPrefix_iff (s p : Str) : HasPrefix s p = true ↔ p <+: s := by
  unfold HasPrefix
  rw [List.prefix_iff_eq_take]
  simp only [Bool.and_eq_true, decide_eq_true_eq, beq_iff_eq]
  constructor
  · rintro ⟨_, h⟩
    exact h.symm
  · intro h
    refine ⟨?_, h.symm⟩
    have := congrArg List.length h
    simp only [List.length_take] at this
    omega

theorem reportFileLoop_iff (line : Str) (prefixes : List Str) (b : Bool) :
    reportFileLoop line prefixes b = true ↔ b = true ∨ startsWithOneOf prefixes line := by
  induction prefixes generalizing b with
  | nil => simp [reportFileLoop, startsWithOneOf]
  | cons p rest ih =>
    rw [reportFileLoop, ih]
    by_cases hp : HasPrefix line p = true
    · have hpre : p <+: line := (HasPrefix_iff line p).1 hp
      simp only [hp, if_true, true_or, true_iff]
      exact Or.inr ⟨p, List.mem_cons_self _ _, hpre⟩
    · have hpre : ¬ p <+: line := fun h => hp ((HasPrefix_iff line p).2 h)
      simp only [hp, if_false]
      unfold startsWithOneOf
      simp [hpre]

theorem reportFileLoop_true (line : Str) (prefixes : List Str)
    (h : startsWithOneOf prefixes line) : reportFileLoop line prefixes false = true :=
  (reportFileLoop_iff line prefixes false).2 (Or.inr h)

theorem reportFileLoop_false (line : Str) (prefixes : List Str)
    (h : ¬ startsWithOneOf prefixes line) : reportFileLoop line prefixes false = false := by
  cases hb : reportFileLoop line prefixes false with
  | false => rfl
  | true =>
    rcases (reportFileLoop_iff line prefixes false).1 hb with h' | h'
    · cases h'
    · exact absurd h' h

/-! ## The loop of FormatFile -/

theorem formatLoop_header (delimiter : Str) (prefixes : List Str) (groupsMap : GroupsMap)
    (line : Str) (rest : List Str) (lineOut : Nat) (out : List Str) :
    formatLoop delimiter prefixes groupsMap (line :: rest) 0 lineOut out =
      formatLoop delimiter prefixes groupsMap rest 1 lineOut out := by
  rw [formatLoop]
  simp

theorem formatLoop_skip (delimiter : Str) (prefixes : List Str) (groupsMap : GroupsMap)
    (line : Str) (rest : List Str) (lineNo lineOut : Nat) (out : List Str)
    (h : ¬ startsWithOneOf prefixes line) :
    formatLoop delimiter prefixes groupsMap (line :: rest) lineNo lineOut out =
      formatLoop delimiter prefixes groupsMap rest (lineNo + 1) lineOut out := by
  rw [formatLoop]
  simp [reportFileLoop_false line prefixes h]

theorem formatLoop_ok (delimiter : Str) (prefixes : List Str) (groupsMap : GroupsMap)
    (line : Str) (rest : List Str) (lineNo lineOut : Nat) (out : List Str) (row : Str)
    (hno : lineNo ≠ 0) (h : startsWithOneOf prefixes line)
    (hrow : processLine line delimiter groupsMap = .ok row) :
    formatLoop delimiter prefixes groupsMap (line :: rest) lineNo lineOut out =
      formatLoop delimiter prefixes groupsMap rest (lineNo + 1) (lineOut + 1)
        (out ++ [row ++ "\n".toList]) := by
  rw [formatLoop]
  simp [reportFileLoop_true line prefixes h, hno, hrow]

theorem formatLoop_error (delimiter : Str) (prefixes : List Str) (groupsMap : GroupsMap)
    (line : Str) (rest : List Str) (lineNo lineOut : Nat) (out : List Str) (e : Error)
    (hno : lineNo ≠ 0) (h : startsWithOneOf prefixes line)
    (hrow : processLine line delimiter groupsMap = .error e) :
    formatLoop delimiter prefixes groupsMap (line :: rest) lineNo lineOut out =
      { err := some e, out := out, lineNo := lineNo + 1, lineOut := lineOut } := by
  rw [formatLoop]
  simp [reportFileLoop_true line prefixes h, hno, hrow]

theorem formatLoop_no_prefixes (delimiter : Str) (groupsMap : GroupsMap) (lines : List Str)
    (lineNo lineOut : Nat) (out : List Str) :
    formatLoop delimiter [] groupsMap lines lineNo lineOut out =
      { err := none, out := out, lineNo := lineNo + lines.length, lineOut := lineOut } := by
  induction lines generalizing lineNo with
  | nil => simp [formatLoop]
  | cons line rest ih =>
    have hskip : ¬ startsWithOneOf [] line := by simp [startsWithOneOf]
    rw [formatLoop_skip delimiter [] groupsMap line rest lineNo lineOut out hskip, ih]
    simp only [List.length_cons]
    congr 1
    omega

theorem formatLoop_lineNo_ne_zero (delimiter : Str) (prefixes : List Str)
    (groupsMap : GroupsMap) (lines : List Str) (lineNo lineOut : Nat) (out : List Str)
    (hno : lineNo ≠ 0) :
    (formatLoop delimiter prefixes groupsMap lines lineNo lineOut out).lineNo ≠ 0 := by
  induction lines generalizing lineNo lineOut out with
  | nil => simpa [formatLoop] using hno
  | cons line rest ih =>
    by_cases hm : startsWithOneOf prefixes line
    · cases hrow : processLine line delimiter groupsMap with
      | error e =>
        rw [formatLoop_error delimiter prefixes groupsMap line rest lineNo lineOut out e hno hm
          hrow]
        simp
      | ok row =>
        rw [formatLoop_ok delimiter prefixes groupsMap line rest lineNo lineOut out row hno hm
          hrow]
        exact ih _ _ _ (Nat.succ_ne_zero _)
    · rw [formatLoop_skip delimiter prefixes groupsMap line rest lineNo lineOut out hm]
      exact ih _ _ _ (Nat.succ_ne_zero _)

theorem formatLoop_append (delimiter : Str) (prefixes : List Str) (groupsMap : GroupsMap)
    (pre post : List Str) (lineNo lineOut : Nat) (out : List Str) (hno : lineNo ≠ 0) :
    formatLoop delimiter prefixes groupsMap (pre ++ post) lineNo lineOut out =
      if (formatLoop delimiter prefixes groupsMap pre lineNo lineOut out).err = none then
        formatLoop delimiter prefixes groupsMap post
          (formatLoop delimiter prefixes groupsMap pre lineNo lineOut out).lineNo
          (formatLoop delimiter prefixes groupsMap pre lineNo lineOut out).lineOut
          (formatLoop delimiter prefixes groupsMap pre lineNo lineOut out).out
      else formatLoop delimiter prefixes groupsMap pre lineNo lineOut out := by
  induction pre generalizing lineNo lineOut out with
  | nil => simp [formatLoop]
  | cons line rest ih =>
    rw [List.cons_append]
    by_cases hm : startsWithOneOf prefixes line
    · cases hrow : processLine line delimiter groupsMap with
      | error e =>
        rw [formatLoop_error delimiter prefixes groupsMap line (rest ++ post) lineNo lineOut out
          e hno hm hrow,
          formatLoop_error delimiter prefixes groupsMap line rest lineNo lineOut out e hno hm
          hrow]
        simp
      | ok row =>
        rw [formatLoop_ok delimiter prefixes groupsMap line (rest ++ post) lineNo lineOut out
          row hno hm hrow,
          formatLoop_ok delimiter prefixes groupsMap line rest lineNo lineOut out row hno hm
          hrow]
        exact ih _ _ _ (Nat.succ_ne_zero _)
    · rw [formatLoop_skip delimiter prefixes groupsMap line (rest ++ post) lineNo lineOut out hm,
        formatLoop_skip delimiter prefixes groupsMap line rest lineNo lineOut out hm]
      exact ih _ _ _ (Nat.succ_ne_zero _)

theorem formatLoop_filter (delimiter : Str) (prefixes : List Str) (groupsMap : GroupsMap)
    (lines : List Str) (lineNo lineOut : Nat) (out : List Str) (hno : lineNo ≠ 0)
    (hwf : ∀ l ∈ lines, startsWithOneOf prefixes l → ¬ (Split l delimiter).length < 4) :
    ∃ rows, List.Forall₂ (rowOf delimiter groupsMap)
        (lines.filter fun l => decide (startsWithOneOf prefixes l)) rows ∧
      formatLoop delimiter prefixes groupsMap lines lineNo lineOut out =
        { err := none, out := out ++ rows.map (fun r => r ++ "\n".toList),
          lineNo := lineNo + lines.length, lineOut := lineOut + rows.length } := by
  induction lines generalizing lineNo lineOut out with
  | nil => exact ⟨[], by simp, by simp [formatLoop]⟩
  | cons line rest ih =>
    have hwf' : ∀ l ∈ rest, startsWithOneOf prefixes l → ¬ (Split l delimiter).length < 4 :=
      fun l hl => hwf l (List.mem_cons_of_mem _ hl)
    by_cases hm : startsWithOneOf prefixes line
    · obtain ⟨p0, p1, p2, p3, more, hs⟩ :=
        split_of_length _ (hwf line (List.mem_cons_self _ _) hm)
      obtain ⟨row, hrow⟩ : ∃ row, processLine line delimiter groupsMap = .ok row :=
        ⟨_, processLine_ok line delimiter groupsMap p0 p1 p2 p3 more hs⟩
      obtain ⟨rows, hrows, hrun⟩ := ih (lineNo + 1) (lineOut + 1)
        (out ++ [row ++ "\n".toList]) (Nat.succ_ne_zero _) hwf'
      refine ⟨row :: rows, ?_, ?_⟩
      · rw [List.filter_cons_of_pos (by simpa using hm)]
        exact List.Forall₂.cons hrow hrows
      · rw [formatLoop_ok delimiter prefixes groupsMap line rest lineNo lineOut out _ hno hm
          hrow, hrun]
        simp only [List.length_cons, List.map_cons, List.append_assoc, List.singleton_append]
        congr 1 <;> omega
    · obtain ⟨rows, hrows, hrun⟩ := ih (lineNo + 1) lineOut out (Nat.succ_ne_zero _) hwf'
      refine ⟨rows, ?_, ?_⟩
      · rw [List.filter_cons_of_neg (by simpa using hm)]
        exact hrows
      · rw [formatLoop_skip delimiter prefixes groupsMap line rest lineNo lineOut out hm, hrun]
        simp only [List.length_cons]
        congr 1
        omega

/-! ## Runs of FormatFile -/

/-- C3, as the code has it: with an empty prefix list every line is filtered
out, so the run succeeds, writes no row and counts no line as written,
whatever the lines contain; all lines are counted as read. -/
theorem FormatFile_empty_prefixes (lines groups : List Str) (delimiter : Str) :
    FormatFile (some lines) true (some groups) delimiter [] =
      { err := none, out := [], lineNo := lines.length, lineOut := 0 } := by
  simp [FormatFile, mapProjectsToGroups, formatLoop_no_prefixes]

/-- C3 as stated fails: the specification's example input, run with the empty
prefix list, gives no output row and a written count of 0, not one row. -/
theorem FormatFile_empty_prefixes_example :
    (FormatFile (some ["h1>>h2>>h3>>h4".toList,
        "/humgen/projects/proj1>>file.txt>>1600000000>>2048".toList]) true (some [])
      ">>".toList []).out = [] ∧
    (FormatFile (some ["h1>>h2>>h3>>h4".toList,
        "/humgen/projects/proj1>>file.txt>>1600000000>>2048".toList]) true (some [])
      ">>".toList []).lineOut = 0 ∧
    (FormatFile (some ["h1>>h2>>h3>>h4".toList,
        "/humgen/projects/proj1>>file.txt>>1600000000>>2048".toList]) true (some [])
      ">>".toList []).out.length ≠ 1 := by
  refine ⟨?_, ?_, ?_⟩ <;> decide

/-- C10: the run does not depend on the content of the first input line: two
inputs that differ only in their first line give the same error or success,
the same output and the same counts; and an input of a first line alone,
whatever it contains, gives no error and no row. -/
theorem FormatFile_header_skip (header1 header2 : Str) (rest : List Str) (outfileOk : Bool)
    (groupsfile : Option (List Str)) (groups : List Str) (delimiter : Str)
    (prefixes : List Str) :
    FormatFile (some (header1 :: rest)) outfileOk groupsfile delimiter prefixes =
      FormatFile (some (header2 :: rest)) outfileOk groupsfile delimiter prefixes ∧
    FormatFile (some [header1]) true (some groups) delimiter prefixes =
      { err := none, out := [], lineNo := 1, lineOut := 0 } := by
  constructor
  · unfold FormatFile
    cases mapProjectsToGroups groupsfile with
    | error e => rfl
    | ok groupsMap =>
      cases outfileOk with
      | false => rfl
      | true => simp only [formatLoop_header, Bool.not_true, Bool.false_eq_true, if_false]
  · simp [FormatFile, mapProjectsToGroups, formatLoop_header, formatLoop]

/-- C7: when every line after the header that starts with one of the prefixes
has at least 4 fields, the run succeeds and writes, in input order, exactly
the rows of the lines after the header that start with one of the prefixes,
one row each, every row followed by a newline. -/
theorem FormatFile_prefix_filter (header : Str) (rest groups : List Str) (delimiter : Str)
    (prefixes : List Str)
    (hwf : ∀ l ∈ rest, startsWithOneOf prefixes l → ¬ (Split l delimiter).length < 4) :
    ∃ rows, List.Forall₂ (rowOf delimiter (groupsLoop groups fun _ => none))
        (rest.filter fun l => decide (startsWithOneOf prefixes l)) rows ∧
      FormatFile (some (header :: rest)) true (some groups) delimiter prefixes =
        { err := none, out := rows.map (fun r => r ++ "\n".toList),
          lineNo := rest.length + 1, lineOut := rows.length } := by
  obtain ⟨rows, hrows, hrun⟩ := formatLoop_filter delimiter prefixes
    (groupsLoop groups fun _ => none) rest 1 0 [] (by decide) hwf
  refine ⟨rows, hrows, ?_⟩
  simp only [FormatFile, mapProjectsToGroups, Bool.not_true, Bool.false_eq_true, if_false,
    formatLoop_header, hrun]
  simp [Nat.add_comm]

/-- An input with a line outside the prefix, which is malformed and skipped,
and a line under the prefix, through the theorem of C7. -/
theorem FormatFile_prefix_filter_witness :
    ∃ rows, List.Forall₂ (rowOf ">>".toList (groupsLoop [] fun _ => none))
        (["/other/x".toList, "/humgen/projects/p>>f>>1>>2".toList].filter
          fun l => decide (startsWithOneOf ["/humgen/projects".toList] l)) rows ∧
      FormatFile (some ("h1>>h2>>h3>>h4".toList ::
          ["/other/x".toList, "/humgen/projects/p>>f>>1>>2".toList])) true (some [])
          ">>".toList ["/humgen/projects".toList] =
        { err := none, out := rows.map (fun r => r ++ "\n".toList),
          lineNo := ["/other/x".toList, "/humgen/projects/p>>f>>1>>2".toList].length + 1,
          lineOut := rows.length } :=
  FormatFile_prefix_filter "h1>>h2>>h3>>h4".toList
    ["/other/x".toList, "/humgen/projects/p>>f>>1>>2".toList] [] ">>".toList
    ["/humgen/projects".toList] (by decide)

/-- C5, as the code has it: when a line after the header starts with one of
the prefixes and splits into fewer than 4 fields, the run fails with an
error, and what it has written is what the run on the lines before that line
writes: no row for the malformed line or for any line after it. -/
theorem FormatFile_malformed_aborts (header : Str) (pre : List Str) (bad : Str)
    (post : List Str) (outfileOk : Bool) (groupsfile : Option (List Str)) (delimiter : Str)
    (prefixes : List Str)
    (hm : startsWithOneOf prefixes bad) (hbad : (Split bad delimiter).length < 4) :
    (FormatFile (some (header :: (pre ++ bad :: post))) outfileOk groupsfile delimiter
        prefixes).err ≠ none ∧
    (FormatFile (some (header :: (pre ++ bad :: post))) outfileOk groupsfile delimiter
        prefixes).out =
      (FormatFile (some (header :: pre)) outfileOk groupsfile delimiter prefixes).out := by
  unfold FormatFile
  cases mapProjectsToGroups groupsfile with
  | error e => simp
  | ok groupsMap =>
    cases outfileOk with
    | false => simp
    | true =>
      simp only [formatLoop_header, Bool.not_true, Bool.false_eq_true, if_false]
      rw [formatLoop_append delimiter prefixes groupsMap pre (bad :: post) 1 0 [] (by decide)]
      by_cases herr : (formatLoop delimiter prefixes groupsMap pre 1 0 []).err = none
      · rw [if_pos herr, formatLoop_error delimiter prefixes groupsMap bad post _ _ _ _
          (formatLoop_lineNo_ne_zero delimiter prefixes groupsMap pre 1 0 [] (by decide)) hm
          (processLine_short bad delimiter groupsMap hbad)]
        simp
      · rw [if_neg herr]
        exact ⟨herr, rfl⟩

/-- A malformed line under the prefix between two good ones, through the
theorem of C5. -/
theorem FormatFile_malformed_aborts_witness :
    (FormatFile (some ("h".toList :: (["/humgen/a>>f>>1>>2".toList] ++ "/humgen/bad".toList ::
        ["/humgen/b>>f>>1>>2".toList]))) true (some []) ">>".toList
        ["/humgen".toList]).err ≠ none ∧
    (FormatFile (some ("h".toList :: (["/humgen/a>>f>>1>>2".toList] ++ "/humgen/bad".toList ::
        ["/humgen/b>>f>>1>>2".toList]))) true (some []) ">>".toList
        ["/humgen".toList]).out =
      (FormatFile (some ("h".toList :: ["/humgen/a>>f>>1>>2".toList])) true (some [])
        ">>".toList ["/humgen".toList]).out :=
  FormatFile_malformed_aborts "h".toList ["/humgen/a>>f>>1>>2".toList] "/humgen/bad".toList
    ["/humgen/b>>f>>1>>2".toList] true (some []) ">>".toList ["/humgen".toList]
    (by decide) (by decide)

/-- C5 as stated fails: a malformed line that starts with none of the prefixes
is skipped, the run succeeds and the line after it gets its row. -/
theorem FormatFile_malformed_skipped :
    (Split "bad".toList ">>".toList).length < 4 ∧
    (FormatFile (some ["h".toList, "bad".toList, "/humgen/b>>f>>1>>2".toList]) true (some [])
      ">>".toList ["/humgen".toList]).err = none ∧
    (FormatFile (some ["h".toList, "bad".toList, "/humgen/b>>f>>1>>2".toList]) true (some [])
      ">>".toList ["/humgen".toList]).out.length = 1 := by
  refine ⟨?_, ?_, ?_⟩ <;> decide

/-! ## The group table -/

theorem GroupsMap.set_same (m : GroupsMap) (k v : Str) : m.set k v k = some v :=
  if_pos rfl

theorem GroupsMap.set_other (m : GroupsMap) (k v x : Str) (h : x ≠ k) : m.set k v x = m x :=
  if_neg h

theorem groupsLoop_cons_defines (row : Str) (rest : List Str) (groups : GroupsMap)
    (h : 2 < (Split row ":".toList).length) :
    groupsLoop (row :: rest) groups =
      groupsLoop rest (groups.set ((Split row ":".toList).getD 0 [])
        ((Split row ":".toList).getD 2 [])) := by
  rw [groupsLoop]
  match hs : Split row ":".toList, h with
  | p0 :: p1 :: p2 :: tl, _ => simp
  | [], h => simp at h
  | [_], h => simp at h
  | [_, _], h => simp at h

theorem groupsLoop_cons_skip (row : Str) (rest : List Str) (groups : GroupsMap)
    (h : ¬ 2 < (Split row ":".toList).length) :
    groupsLoop (row :: rest) groups = groupsLoop rest groups := by
  rw [groupsLoop]
  match hs : Split row ":".toList, h with
  | p0 :: p1 :: p2 :: tl, h => simp at h
  | [], _ => rfl
  | [_], _ => rfl
  | [_, _], _ => rfl

theorem groupsLoop_lookup (rows : List Str) (groups : GroupsMap) (n g : Str) :
    groupsLoop rows groups n = some g ↔
      (∃ pre row post, rows = pre ++ row :: post ∧ definesGroup row n ∧
        (Split row ":".toList).getD 2 [] = g ∧ ∀ r ∈ post, ¬ definesGroup r n) ∨
      ((∀ r ∈ rows, ¬ definesGroup r n) ∧ groups n = some g) := by
  induction rows generalizing groups with
  | nil => simp [groupsLoop]
  | cons row rest ih =>
    by_cases hlen : 2 < (Split row ":".toList).length
    · rw [groupsLoop_cons_defines row rest groups hlen, ih]
      constructor
      · rintro (⟨pre, r, post, hrows, hdef, hval, hpost⟩ | ⟨hnone, hset⟩)
        · exact Or.inl ⟨row :: pre, r, post, by rw [hrows]; rfl, hdef, hval, hpost⟩
        · by_cases hn : n = (Split row ":".toList).getD 0 []
          · left
            refine ⟨[], row, rest, rfl, ⟨hlen, hn.symm⟩, ?_, hnone⟩
            rw [hn, GroupsMap.set_same] at hset
            exact Option.some.inj hset
          · right
            rw [GroupsMap.set_other _ _ _ _ hn] at hset
            refine ⟨?_, hset⟩
            intro r hr
            rcases List.mem_cons.1 hr with rfl | hr
            · exact fun hd => hn hd.2.symm
            · exact hnone r hr
      · rintro (⟨pre, r, post, hrows, hdef, hval, hpost⟩ | ⟨hnone, hg⟩)
        · cases pre with
          | nil =>
            simp only [List.nil_append, List.cons.injEq] at hrows
            obtain ⟨rfl, rfl⟩ := hrows
            right
            refine ⟨hpost, ?_⟩
            rw [← hdef.2, GroupsMap.set_same, hval]
          | cons p pre =>
            simp only [List.cons_append, List.cons.injEq] at hrows
            exact Or.inl ⟨pre, r, post, hrows.2, hdef, hval, hpost⟩
        · have hrow : ¬ definesGroup row n := hnone row (List.mem_cons_self _ _)
          have hn : n ≠ (Split row ":".toList).getD 0 [] := fun e => hrow ⟨hlen, e.symm⟩
          right
          refine ⟨fun r hr => hnone r (List.mem_cons_of_mem _ hr), ?_⟩
          rw [GroupsMap.set_other _ _ _ _ hn]
          exact hg
    · have hrow : ¬ definesGroup row n := fun hd => hlen hd.1
      rw [groupsLoop_cons_skip row rest groups hlen, ih]
      constructor
      · rintro (⟨pre, r, post, hrows, hdef, hval, hpost⟩ | ⟨hnone, hg⟩)
        · exact Or.inl ⟨row :: pre, r, post, by rw [hrows]; rfl, hdef, hval, hpost⟩
        · right
          refine ⟨?_, hg⟩
          intro r hr
          rcases List.mem_cons.1 hr with rfl | hr
          · exact hrow
          · exact hnone r hr
      · rintro (⟨pre, r, post, hrows, hdef, hval, hpost⟩ | ⟨hnone, hg⟩)
        · cases pre with
          | nil =>
            simp only [List.nil_append, List.cons.injEq] at hrows
            obtain ⟨rfl, rfl⟩ := hrows
            exact absurd hdef hrow
          | cons p pre =>
            simp only [List.cons_append, List.cons.injEq] at hrows
            exact Or.inl ⟨pre, r, post, hrows.2, hdef, hval, hpost⟩
        · exact Or.inr ⟨fun r hr => hnone r (List.mem_cons_of_mem _ hr), hg⟩

/-- C8: the table built from the lines of the group file maps a name `n` to
`g` exactly when some line has more than 2 colon-separated fields with field
0 equal to `n`, `g` being field 2 of the last such line; the function returns
no error, whatever the other lines are. -/
theorem mapProjectsToGroups_spec (rows : List Str) :
    ∃ groups, mapProjectsToGroups (some rows) = .ok groups ∧
      ∀ n g, groups n = some g ↔
        ∃ pre row post, rows = pre ++ row :: post ∧ definesGroup row n ∧
          (Split row ":".toList).getD 2 [] = g ∧ ∀ r ∈ post, ¬ definesGroup r n := by
  refine ⟨_, rfl, ?_⟩
  intro n g
  rw [groupsLoop_lookup]
  simp

/-- The two lines of the test, with a short line and a duplicate name:
`root` and `hgi` get `0` and `1313`, the later `hgi` line wins. -/
theorem mapProjectsToGroups_spec_witness :
    ∃ groups, mapProjectsToGroups (some ["hgi:x:1:".toList, "short:x".toList,
        "root:x:0:".toList, "hgi:x:1313:members".toList]) = .ok groups ∧
      groups "root".toList = some "0".toList ∧ groups "hgi".toList = some "1313".toList ∧
      groups "short".toList = none := by
  obtain ⟨groups, hok, hspec⟩ := mapProjectsToGroups_spec ["hgi:x:1:".toList,
    "short:x".toList, "root:x:0:".toList, "hgi:x:1313:members".toList]
  refine ⟨groups, hok, ?_, ?_, ?_⟩
  · exact (hspec _ _).2 ⟨["hgi:x:1:".toList, "short:x".toList], "root:x:0:".toList,
      ["hgi:x:1313:members".toList], rfl, by decide, by decide, by decide⟩
  · exact (hspec _ _).2 ⟨["hgi:x:1:".toList, "short:x".toList, "root:x:0:".toList],
      "hgi:x:1313:members".toList, [], rfl, by decide, by decide, by decide⟩
  · cases hg : groups "short".toList with
    | none => rfl
    | some g =>
      obtain ⟨pre, row, post, hrows, hdef, _, _⟩ := (hspec _ _).1 hg
      have hmem : row ∈ ["hgi:x:1:".toList, "short:x".toList, "root:x:0:".toList,
          "hgi:x:1313:members".toList] := by
        rw [hrows]
        simp
      have hall : ∀ r ∈ ["hgi:x:1:".toList, "short:x".toList, "root:x:0:".toList,
          "hgi:x:1313:members".toList], ¬ definesGroup r "short".toList := by decide
      exact absurd hdef (hall row hmem)

/-! ## The first implementation -/

theorem IRods_processLine_ok (line delimiter : Str) (groupsMap : GroupsMap)
    (collection filename createTime size : Str) (more : List Str)
    (h : Split line delimiter = collection :: filename :: createTime :: size :: more) :
    IRods.processLine line delimiter groupsMap =
      .ok (EncodeToString (toBytes (Join collection filename)) ++ ['\t'] ++ size ++ ['\t']
        ++ "user".toList ++ ['\t']
        ++ (match groupsMap (IRods.getProjectFromCollection collection) with
            | some val => val
            | none => "xx".toList) ++ ['\t'] ++ "0".toList ++ ['\t'] ++ [] ++ ['\t']
        ++ createTime ++ ['\t'] ++ "f".toList ++ ['\t'] ++ "0".toList ++ ['\t']
        ++ "0".toList ++ ['\t'] ++ "0".toList ++ ['\t']) := by
  have ht : "\t".toList = ['\t'] := rfl
  simp [IRods.processLine, h, ht]

/-- C12, as the code has it: in the row of the first implementation the
atime, inode id, hardlink count and device id values are the literal `0`,
the user value is the literal `user` and the protection mode is the literal
`f`; the mtime value is some string. -/
theorem IRods_processLine_unused (line delimiter : Str) (groupsMap : GroupsMap)
    (collection filename createTime size : Str) (more : List Str)
    (h : Split line delimiter = collection :: filename :: createTime :: size :: more) :
    ∃ mtime, IRods.processLine line delimiter groupsMap =
      .ok (EncodeToString (toBytes (Join collection filename)) ++ "\t".toList ++ size
        ++ "\t".toList ++ "user".toList ++ "\t".toList
        ++ (match groupsMap (IRods.getProjectFromCollection collection) with
            | some val => val
            | none => "xx".toList) ++ "\t".toList ++ "0".toList ++ "\t".toList ++ mtime
        ++ "\t".toList ++ createTime ++ "\t".toList ++ "f".toList ++ "\t".toList
        ++ "0".toList ++ "\t".toList ++ "0".toList ++ "\t".toList ++ "0".toList
        ++ "\t".toList) := by
  have ht : "\t".toList = ['\t'] := rfl
  refine ⟨[], ?_⟩
  rw [IRods_processLine_ok line delimiter groupsMap collection filename createTime size more h,
    ht]

/-- A line of the test file, through the theorem of C12. -/
theorem IRods_processLine_unused_witness :
    ∃ mtime, IRods.processLine "aaaaax>>bbbbx>>ccccx>>ddddx".toList ">>".toList
        (fun _ => none) =
      .ok (EncodeToString (toBytes (Join "aaaaax".toList "bbbbx".toList)) ++ "\t".toList
        ++ "ddddx".toList ++ "\t".toList ++ "user".toList ++ "\t".toList
        ++ (match (fun _ => none : GroupsMap)
              (IRods.getProjectFromCollection "aaaaax".toList) with
            | some val => val
            | none => "xx".toList) ++ "\t".toList ++ "0".toList ++ "\t".toList ++ mtime
        ++ "\t".toList ++ "ccccx".toList ++ "\t".toList ++ "f".toList ++ "\t".toList
        ++ "0".toList ++ "\t".toList ++ "0".toList ++ "\t".toList ++ "0".toList
        ++ "\t".toList) :=
  IRods_processLine_unused "aaaaax>>bbbbx>>ccccx>>ddddx".toList ">>".toList (fun _ => none)
    "aaaaax".toList "bbbbx".toList "ccccx".toList "ddddx".toList [] (by decide)

/-- C12 as stated fails: in the row of a line of the test file the user value
is `user` and the protection mode is `f`, not `0`. -/
theorem IRods_processLine_user_not_zero :
    IRods.processLine "aaaaax>>bbbbx>>ccccx>>ddddx".toList ">>".toList (fun _ => none) =
      .ok "YWFhYWF4L2JiYmJ4\tddddx\tuser\txx\t0\t\tccccx\tf\t0\t0\t0\t".toList ∧
    (Split "YWFhYWF4L2JiYmJ4\tddddx\tuser\txx\t0\t\tccccx\tf\t0\t0\t0\t".toList
      "\t".toList).getD 2 [] = "user".toList ∧
    (Split "YWFhYWF4L2JiYmJ4\tddddx\tuser\txx\t0\t\tccccx\tf\t0\t0\t0\t".toList
      "\t".toList).getD 7 [] = "f".toList ∧
    "user".toList ≠ "0".toList ∧ "f".toList ≠ "0".toList :=
  ⟨rfl, by decide, by decide, by decide, by decide⟩

/-- C13: two lines that split into at least 4 fields and agree on the first
four get the same row from `processLine`, whatever their later fields are. -/
theorem processLine_first_four (line1 line2 delimiter : Str) (groupsMap : GroupsMap)
    (collection filename createTime size : Str) (more1 more2 : List Str)
    (h1 : Split line1 delimiter = collection :: filename :: createTime :: size :: more1)
    (h2 : Split line2 delimiter = collection :: filename :: createTime :: size :: more2) :
    processLine line1 delimiter groupsMap = processLine line2 delimiter groupsMap ∧
    ∃ row, processLine line1 delimiter groupsMap = .ok row := by
  rw [processLine_ok line1 delimiter groupsMap collection filename createTime size more1 h1,
    processLine_ok line2 delimiter groupsMap collection filename createTime size more2 h2]
  exact ⟨rfl, _, rfl⟩

/-- A line of four fields and the same line with two more fields, through the
theorem of C13. -/
theorem processLine_first_four_witness :
    processLine "a>>b>>c>>d".toList ">>".toList (fun _ => none) =
      processLine "a>>b>>c>>d>>e>>f".toList ">>".toList (fun _ => none) ∧
    ∃ row, processLine "a>>b>>c>>d".toList ">>".toList (fun _ => none) = .ok row :=
  processLine_first_four "a>>b>>c>>d".toList "a>>b>>c>>d>>e>>f".toList ">>".toList
    (fun _ => none) "a".toList "b".toList "c".toList "d".toList [] ["e".toList, "f".toList]
    (by decide) (by decide)

/-! ## The two identifier derivations -/

theorem projectLoop_eq_of_no_teams (parts : List Str)
    (h : ∀ seg ∈ parts, seg ≠ "teams".toList) :
    projectTeamLoop parts = IRods.projectLoop parts := by
  induction parts with
  | nil => rfl
  | cons p rest ih =>
    cases rest with
    | nil => rfl
    | cons next tl =>
      have hp : p ≠ "teams".toList := h p (List.mem_cons_self _ _)
      have hrest : ∀ seg ∈ next :: tl, seg ≠ "teams".toList :=
        fun seg hs => h seg (List.mem_cons_of_mem _ hs)
      by_cases hproj : p = "projects".toList
      · simp [projectTeamLoop, IRods.projectLoop, hproj]
      · simp only [projectTeamLoop, IRods.projectLoop, hp, hproj, if_false]
        exact ih hrest

theorem projectLoop_differ (parts : List Str)
    (h : projectTeamLoop parts ≠ IRods.projectLoop parts) :
    ∃ i, i + 1 < parts.length ∧ parts.getD i [] = "teams".toList ∧
      projectTeamLoop parts = parts.getD (i + 1) [] := by
  induction parts with
  | nil => exact absurd rfl h
  | cons p rest ih =>
    cases rest with
    | nil => exact absurd rfl h
    | cons next tl =>
      by_cases hp : p = "projects".toList
      · exact absurd (by simp [projectTeamLoop, IRods.projectLoop, hp]) h
      · by_cases ht : p = "teams".toList
        · refine ⟨0, by simp, by simpa using ht, ?_⟩
          simp [projectTeamLoop, hp, ht]
        · have hrec : projectTeamLoop (next :: tl) ≠ IRods.projectLoop (next :: tl) := by
            intro e
            apply h
            simp only [projectTeamLoop, IRods.projectLoop, hp, ht, if_false]
            exact e
          obtain ⟨i, hi, hteams, hres⟩ := ih hrec
          refine ⟨i + 1, by simpa using hi, by simpa using hteams, ?_⟩
          simp only [projectTeamLoop, hp, ht, if_false]
          simpa using hres

/-- C17: on a collection none of whose segments is `teams` the two identifier
derivations return the same string; and whenever they differ, the result of
the second implementation is the segment after a `teams` segment. -/
theorem getProject_agree (c : Str) :
    ((∀ seg ∈ Split c "/".toList, seg ≠ "teams".toList) →
      getProjectTeamFromCollection c = IRods.getProjectFromCollection c) ∧
    (getProjectTeamFromCollection c ≠ IRods.getProjectFromCollection c →
      ∃ i, i + 1 < (Split c "/".toList).length ∧
        (Split c "/".toList).getD i [] = "teams".toList ∧
        getProjectTeamFromCollection c = (Split c "/".toList).getD (i + 1) []) :=
  ⟨fun h => projectLoop_eq_of_no_teams _ h, fun h => projectLoop_differ _ h⟩

/-- A collection under `projects`, where the two agree, and one under `teams`,
where they differ and the second returns `teamA`, through the theorem of C17. -/
theorem getProject_agree_witness :
    getProjectTeamFromCollection "/humgen/projects/myproj/run1".toList =
      IRods.getProjectFromCollection "/humgen/projects/myproj/run1".toList ∧
    ∃ i, i + 1 < (Split "/humgen/teams/teamA/data".toList "/".toList).length ∧
      (Split "/humgen/teams/teamA/data".toList "/".toList).getD i [] = "teams".toList ∧
      getProjectTeamFromCollection "/humgen/teams/teamA/data".toList =
        (Split "/humgen/teams/teamA/data".toList "/".toList).getD (i + 1) [] :=
  ⟨(getProject_agree "/humgen/projects/myproj/run1".toList).1 (by decide),
   (getProject_agree "/humgen/teams/teamA/data".toList).2 (by decide)⟩

/-! ## What the loop of FormatFile writes -/

theorem formatLoop_out_mem (delimiter : Str) (prefixes : List Str) (groupsMap : GroupsMap)
    (lines : List Str) (lineNo lineOut : Nat) (out : List Str) (hno : lineNo ≠ 0) :
    ∀ o ∈ (formatLoop delimiter prefixes groupsMap lines lineNo lineOut out).out,
      o ∈ out ∨ ∃ l ∈ lines, startsWithOneOf prefixes l ∧
        ∃ row, processLine l delimiter groupsMap = .ok row ∧ o = row ++ "\n".toList := by
  induction lines generalizing lineNo lineOut out with
  | nil =>
    intro o ho
    exact Or.inl (by simpa [formatLoop] using ho)
  | cons line rest ih =>
    intro o ho
    by_cases hm : startsWithOneOf prefixes line
    · cases hrow : processLine line delimiter groupsMap with
      | error e =>
        rw [formatLoop_error delimiter prefixes groupsMap line rest lineNo lineOut out e hno hm
          hrow] at ho
        exact Or.inl ho
      | ok row =>
        rw [formatLoop_ok delimiter prefixes groupsMap line rest lineNo lineOut out row hno hm
          hrow] at ho
        rcases ih _ _ _ (Nat.succ_ne_zero _) o ho with hin | ⟨l, hl, hml, r, hr, ho'⟩
        · rcases List.mem_append.1 hin with hin | hin
          · exact Or.inl hin
          · right
            refine ⟨line, List.mem_cons_self _ _, hm, row, hrow, ?_⟩
            simpa using hin
        · exact Or.inr ⟨l, List.mem_cons_of_mem _ hl, hml, r, hr, ho'⟩
    · rw [formatLoop_skip delimiter prefixes groupsMap line rest lineNo lineOut out hm] at ho
      rcases ih _ _ _ (Nat.succ_ne_zero _) o ho with hin | ⟨l, hl, hml, r, hr, ho'⟩
      · exact Or.inl hin
      · exact Or.inr ⟨l, List.mem_cons_of_mem _ hl, hml, r, hr, ho'⟩

theorem FormatFile_out_mem (infile : Option (List Str)) (outfileOk : Bool)
    (groupsfile : Option (List Str)) (delimiter : Str) (prefixes : List Str) :
    ∀ o ∈ (FormatFile infile outfileOk groupsfile delimiter prefixes).out,
      ∃ lines groups l row, infile = some lines ∧ groupsfile = some groups ∧ l ∈ lines.tail ∧
        startsWithOneOf prefixes l ∧
        processLine l delimiter (groupsLoop groups fun _ => none) = .ok row ∧
        o = row ++ "\n".toList := by
  intro o ho
  unfold FormatFile at ho
  cases groupsfile with
  | none => simp [mapProjectsToGroups] at ho
  | some groups =>
    cases infile with
    | none => simp [mapProjectsToGroups] at ho
    | some lines =>
      cases outfileOk with
      | false => simp [mapProjectsToGroups] at ho
      | true =>
        cases lines with
        | nil => simp [mapProjectsToGroups, formatLoop] at ho
        | cons header rest =>
          simp only [mapProjectsToGroups, Bool.not_true, Bool.false_eq_true, if_false,
            formatLoop_header] at ho
          rcases formatLoop_out_mem delimiter prefixes _ rest 1 0 [] (by decide) o ho with
            hin | ⟨l, hl, hml, row, hrow, ho'⟩
          · simp at hin
          · exact ⟨header :: rest, groups, l, row, rfl, rfl, hl, hml, hrow, ho'⟩

theorem processLine_ends_tab (line delimiter : Str) (groupsMap : GroupsMap) (row : Str)
    (h : processLine line delimiter groupsMap = .ok row) : ∃ front, row = front ++ ['\t'] := by
  by_cases hlen : (Split line delimiter).length < 4
  · rw [processLine_short line delimiter groupsMap hlen] at h
    cases h
  · obtain ⟨p0, p1, p2, p3, more, hs⟩ := split_of_length _ hlen
    rw [processLine_ok line delimiter groupsMap p0 p1 p2 p3 more hs] at h
    exact ⟨_, (Except.ok.inj h).symm⟩

theorem suffix_tab_newline (front : Str) :
    ['\t', '\n'] <:+ (front ++ ['\t']) ++ ['\n'] :=
  ⟨front, by simp⟩

/-- C19: the row is the concatenation of its eleven values, each followed by
a tab; it has at least 11 tabs, exactly 11 when the size, the createTime and
the group value have none, and it ends with a tab, so that every line
FormatFile writes ends with a tab and a newline. -/
theorem processLine_row_tabs (line delimiter : Str) (groupsMap : GroupsMap)
    (collection filename createTime size : Str) (more : List Str)
    (h : Split line delimiter = collection :: filename :: createTime :: size :: more) :
    ∃ row, processLine line delimiter groupsMap = .ok row ∧
      row = ([EncodeToString (toBytes (Join collection filename)), size, [],
          groupOf groupsMap collection, [], [], createTime, [], [], [], []].map
            fun v => v ++ "\t".toList).flatten ∧
      11 ≤ row.count '\t' ∧
      ('\t' ∉ size → '\t' ∉ createTime → '\t' ∉ groupOf groupsMap collection →
        row.count '\t' = 11) ∧
      row.getLast? = some '\t' ∧
      "\t\n".toList <:+ row ++ "\n".toList ∧
      ∀ infile outfileOk groupsfile prefixes,
        ∀ o ∈ (FormatFile infile outfileOk groupsfile delimiter prefixes).out,
          "\t\n".toList <:+ o := by
  have ht : "\t".toList = ['\t'] := rfl
  have hn : "\n".toList = ['\n'] := rfl
  have htn : "\t\n".toList = ['\t', '\n'] := rfl
  have hb := tab_not_mem_EncodeToString (toBytes (Join collection filename))
  refine ⟨_, processLine_ok line delimiter groupsMap collection filename createTime size more h,
    ?_, ?_, ?_, ?_, ?_, ?_⟩
  · simp [groupOf, ht]
  · simp only [List.count_append, List.count_singleton_self]
    omega
  · intro hs hc hg
    have hg' : '\t' ∉ (match groupsMap (getProjectTeamFromCollection collection) with
        | some val => val
        | none => "xx".toList) := hg
    simp only [List.count_append, List.count_singleton_self, List.count_eq_zero_of_not_mem hb,
      List.count_eq_zero_of_not_mem hs, List.count_eq_zero_of_not_mem hc,
      List.count_eq_zero_of_not_mem hg']
  · exact List.getLast?_concat _
  · rw [htn, hn]
    exact suffix_tab_newline _
  · intro infile outfileOk groupsfile prefixes o ho
    obtain ⟨lines, groups, l, row, _, _, _, _, hrow, ho'⟩ :=
      FormatFile_out_mem infile outfileOk groupsfile delimiter prefixes o ho
    obtain ⟨front, hfront⟩ := processLine_ends_tab l delimiter _ row hrow
    rw [ho', hfront, htn, hn]
    exact suffix_tab_newline front

/-- The example line of the specification, through the theorem of C19. -/
theorem processLine_row_tabs_witness :
    ∃ row, processLine "/humgen/projects/proj1>>file.txt>>1600000000>>2048".toList
        ">>".toList (fun _ => none) = .ok row ∧
      row = ([EncodeToString (toBytes (Join "/humgen/projects/proj1".toList
          "file.txt".toList)), "2048".toList, [],
          groupOf (fun _ => none) "/humgen/projects/proj1".toList, [], [],
          "1600000000".toList, [], [], [], []].map fun v => v ++ "\t".toList).flatten ∧
      11 ≤ row.count '\t' ∧
      ('\t' ∉ "2048".toList → '\t' ∉ "1600000000".toList →
        '\t' ∉ groupOf (fun _ => none) "/humgen/projects/proj1".toList →
        row.count '\t' = 11) ∧
      row.getLast? = some '\t' ∧
      "\t\n".toList <:+ row ++ "\n".toList ∧
      ∀ infile outfileOk groupsfile prefixes,
        ∀ o ∈ (FormatFile infile outfileOk groupsfile ">>".toList prefixes).out,
          "\t\n".toList <:+ o :=
  processLine_row_tabs "/humgen/projects/proj1>>file.txt>>1600000000>>2048".toList
    ">>".toList (fun _ => none) "/humgen/projects/proj1".toList "file.txt".toList
    "1600000000".toList "2048".toList [] (by decide)

/-! ## The counters of FormatFile -/

theorem formatLoop_counts (delimiter : Str) (prefixes : List Str) (groupsMap : GroupsMap)
    (lines : List Str) (lineNo lineOut : Nat) (out : List Str) (hno : lineNo ≠ 0) :
    ((formatLoop delimiter prefixes groupsMap lines lineNo lineOut out).err = none →
      (formatLoop delimiter prefixes groupsMap lines lineNo lineOut out).lineNo =
        lineNo + lines.length) ∧
    (formatLoop delimiter prefixes groupsMap lines lineNo lineOut out).lineOut + out.length =
      lineOut + (formatLoop delimiter prefixes groupsMap lines lineNo lineOut out).out.length ∧
    (formatLoop delimiter prefixes groupsMap lines lineNo lineOut out).lineOut ≤
      lineOut + lines.length := by
  induction lines generalizing lineNo lineOut out with
  | nil => simp [formatLoop]
  | cons line rest ih =>
    by_cases hm : startsWithOneOf prefixes line
    · cases hrow : processLine line delimiter groupsMap with
      | error e =>
        rw [formatLoop_error delimiter prefixes groupsMap line rest lineNo lineOut out e hno hm
          hrow]
        simp
      | ok row =>
        rw [formatLoop_ok delimiter prefixes groupsMap line rest lineNo lineOut out row hno hm
          hrow]
        obtain ⟨h1, h2, h3⟩ := ih (lineNo + 1) (lineOut + 1) (out ++ [row ++ "\n".toList])
          (Nat.succ_ne_zero _)
        simp only [List.length_append, List.length_cons, List.length_nil] at h2 h3 ⊢
        refine ⟨fun he => ?_, by omega, by omega⟩
        have := h1 he
        omega
    · rw [formatLoop_skip delimiter prefixes groupsMap line rest lineNo lineOut out hm]
      obtain ⟨h1, h2, h3⟩ := ih (lineNo + 1) lineOut out (Nat.succ_ne_zero _)
      simp only [List.length_cons]
      refine ⟨fun he => ?_, h2, by omega⟩
      have := h1 he
      omega

/-- C15: on a run without error the input file was opened, the count of lines
read is the number of input lines, header and skipped lines included, the
count of lines written is the number of rows written, and for a non-empty
input the written count is at most the read count minus one. -/
theorem FormatFile_counts (infile : Option (List Str)) (outfileOk : Bool)
    (groupsfile : Option (List Str)) (delimiter : Str) (prefixes : List Str)
    (h : (FormatFile infile outfileOk groupsfile delimiter prefixes).err = none) :
    ∃ lines, infile = some lines ∧
      (FormatFile infile outfileOk groupsfile delimiter prefixes).lineNo = lines.length ∧
      (FormatFile infile outfileOk groupsfile delimiter prefixes).lineOut =
        (FormatFile infile outfileOk groupsfile delimiter prefixes).out.length ∧
      (lines ≠ [] →
        (FormatFile infile outfileOk groupsfile delimiter prefixes).lineOut ≤
          (FormatFile infile outfileOk groupsfile delimiter prefixes).lineNo - 1) := by
  unfold FormatFile at h ⊢
  cases groupsfile with
  | none => simp [mapProjectsToGroups] at h
  | some groups =>
    cases infile with
    | none => simp [mapProjectsToGroups] at h
    | some lines =>
      cases outfileOk with
      | false => simp [mapProjectsToGroups] at h
      | true =>
        refine ⟨lines, rfl, ?_⟩
        cases lines with
        | nil => simp [mapProjectsToGroups, formatLoop]
        | cons header rest =>
          simp only [mapProjectsToGroups, Bool.not_true, Bool.false_eq_true, if_false,
            formatLoop_header] at h ⊢
          obtain ⟨h1, h2, h3⟩ := formatLoop_counts delimiter prefixes
            (groupsLoop groups fun _ => none) rest 1 0 [] (by decide)
          have hread := h1 h
          simp only [List.length_nil, List.length_cons] at h2 ⊢
          refine ⟨by omega, by omega, fun _ => by omega⟩

/-- A run on a header, a skipped line and a line under the prefix, through the
theorem of C15: 3 lines read, 1 written. -/
theorem FormatFile_counts_witness :
    ∃ lines, some ["h".toList, "/other/x".toList, "/humgen/b>>f>>1>>2".toList] = some lines ∧
      (FormatFile (some ["h".toList, "/other/x".toList, "/humgen/b>>f>>1>>2".toList]) true
        (some []) ">>".toList ["/humgen".toList]).lineNo = lines.length ∧
      (FormatFile (some ["h".toList, "/other/x".toList, "/humgen/b>>f>>1>>2".toList]) true
        (some []) ">>".toList ["/humgen".toList]).lineOut =
        (FormatFile (some ["h".toList, "/other/x".toList, "/humgen/b>>f>>1>>2".toList]) true
          (some []) ">>".toList ["/humgen".toList]).out.length ∧
      (lines ≠ [] →
        (FormatFile (some ["h".toList, "/other/x".toList, "/humgen/b>>f>>1>>2".toList]) true
          (some []) ">>".toList ["/humgen".toList]).lineOut ≤
          (FormatFile (some ["h".toList, "/other/x".toList, "/humgen/b>>f>>1>>2".toList]) true
            (some []) ">>".toList ["/humgen".toList]).lineNo - 1) :=
  FormatFile_counts (some ["h".toList, "/other/x".toList, "/humgen/b>>f>>1>>2".toList]) true
    (some []) ">>".toList ["/humgen".toList] (by decide)

/-- C16: when a line under the prefixes has fewer than 4 fields and every
line under the prefixes before it has at least 4, the run returns the error
of `processLine` for that line, and what it has written stays: the rows, in
input order, of the lines under the prefixes between the header and that
line. -/
theorem FormatFile_no_rollback (header : Str) (pre : List Str) (bad : Str) (post : List Str)
    (groups : List Str) (delimiter : Str) (prefixes : List Str)
    (hm : startsWithOneOf prefixes bad) (hbad : (Split bad delimiter).length < 4)
    (hfirst : ∀ l ∈ pre, startsWithOneOf prefixes l → ¬ (Split l delimiter).length < 4) :
    ∃ rows e, List.Forall₂ (rowOf delimiter (groupsLoop groups fun _ => none))
        (pre.filter fun l => decide (startsWithOneOf prefixes l)) rows ∧
      processLine bad delimiter (groupsLoop groups fun _ => none) = .error e ∧
      e = .format ("Incorrect format for input line ".toList ++ bad) ∧
      FormatFile (some (header :: (pre ++ bad :: post))) true (some groups) delimiter
          prefixes =
        { err := some e, out := rows.map (fun r => r ++ "\n".toList),
          lineNo := pre.length + 2, lineOut := rows.length } := by
  obtain ⟨rows, hrows, hrun⟩ := formatLoop_filter delimiter prefixes
    (groupsLoop groups fun _ => none) pre 1 0 [] (by decide) hfirst
  have herr := processLine_short bad delimiter (groupsLoop groups fun _ => none) hbad
  refine ⟨rows, _, hrows, herr, rfl, ?_⟩
  simp only [FormatFile, mapProjectsToGroups, Bool.not_true, Bool.false_eq_true, if_false,
    formatLoop_header]
  rw [formatLoop_append delimiter prefixes _ pre (bad :: post) 1 0 [] (by decide), hrun]
  simp only [if_true]
  rw [formatLoop_error delimiter prefixes _ bad post _ _ _ _ (by omega) hm herr]
  simp
  omega

/-- A malformed line under the prefix after a skipped line and a good one,
through the theorem of C16. -/
theorem FormatFile_no_rollback_witness :
    ∃ rows e, List.Forall₂ (rowOf ">>".toList (groupsLoop [] fun _ => none))
        (["/other/x".toList, "/humgen/a>>f>>1>>2".toList].filter
          fun l => decide (startsWithOneOf ["/humgen".toList] l)) rows ∧
      processLine "/humgen/bad".toList ">>".toList (groupsLoop [] fun _ => none) = .error e ∧
      e = .format ("Incorrect format for input line ".toList ++ "/humgen/bad".toList) ∧
      FormatFile (some ("h".toList :: (["/other/x".toList, "/humgen/a>>f>>1>>2".toList]
          ++ "/humgen/bad".toList :: ["/humgen/b>>f>>1>>2".toList]))) true (some [])
          ">>".toList ["/humgen".toList] =
        { err := some e, out := rows.map (fun r => r ++ "\n".toList),
          lineNo := ["/other/x".toList, "/humgen/a>>f>>1>>2".toList].length + 2,
          lineOut := rows.length } :=
  FormatFile_no_rollback "h".toList ["/other/x".toList, "/humgen/a>>f>>1>>2".toList]
    "/humgen/bad".toList ["/humgen/b>>f>>1>>2".toList] [] ">>".toList ["/humgen".toList]
    (by decide) (by decide) (by decide)

/-! ## The prefix filter and the collection field -/

theorem splitAux_head_isPrefix (sep s acc : Str) :
    ∃ field tl, splitAux sep s 0 acc = (acc.reverse ++ field) :: tl ∧ field <+: s := by
  induction s generalizing acc with
  | nil => exact ⟨[], [], by simp [splitAux], List.nil_prefix⟩
  | cons c s ih =>
    by_cases hsep : sep.isPrefixOf (c :: s) = true
    · exact ⟨[], splitAux sep s (sep.length - 1) [], by simp [splitAux, hsep],
        List.nil_prefix⟩
    · obtain ⟨field, tl, hsplit, hfield⟩ := ih (c :: acc)
      refine ⟨c :: field, tl, ?_, (List.prefix_cons_inj c).2 hfield⟩
      rw [splitAux]
      simp only [hsep, Bool.false_eq_true, if_false, hsplit]
      simp

theorem splitAux_head_keeps (c0 : Char) (sep p s acc : Str) (hp : p <+: s) (hc : c0 ∉ p) :
    ∃ field tl, splitAux (c0 :: sep) s 0 acc = (acc.reverse ++ field) :: tl ∧ p <+: field := by
  induction p generalizing s acc with
  | nil =>
    obtain ⟨field, tl, hsplit, _⟩ := splitAux_head_isPrefix (c0 :: sep) s acc
    exact ⟨field, tl, hsplit, List.nil_prefix⟩
  | cons a p ih =>
    obtain ⟨t, rfl⟩ := hp
    have ha : c0 ≠ a := fun e => hc (by simp [e])
    have hp' : c0 ∉ p := fun e => hc (List.mem_cons_of_mem _ e)
    obtain ⟨field, tl, hsplit, hfield⟩ := ih (p ++ t) (a :: acc) (List.prefix_append _ _) hp'
    refine ⟨a :: field, tl, ?_, (List.prefix_cons_inj a).2 hfield⟩
    have hnot : (c0 :: sep).isPrefixOf (a :: (p ++ t)) = false := by
      simp [List.isPrefixOf, ha]
    rw [List.cons_append, splitAux]
    simp only [hnot, Bool.false_eq_true, if_false, hsplit]
    simp

theorem collectionOf_isPrefix (line : Str) (c0 : Char) (sep : Str) :
    collectionOf line (c0 :: sep) <+: line := by
  obtain ⟨field, tl, hsplit, hfield⟩ := splitAux_head_isPrefix (c0 :: sep) line []
  simpa [collectionOf, Split, hsplit] using hfield

theorem collectionOf_keeps (line : Str) (c0 : Char) (sep p : Str) (hp : p <+: line)
    (hc : c0 ∉ p) : p <+: collectionOf line (c0 :: sep) := by
  obtain ⟨field, tl, hsplit, hfield⟩ := splitAux_head_keeps c0 sep p line [] hp hc
  simpa [collectionOf, Split, hsplit] using hfield

theorem startsWithOneOf_main_iff (line : Str) :
    startsWithOneOf ["/humgen/projects".toList, "/humgen/teams".toList] line ↔
      startsWithOneOf ["/humgen/projects".toList, "/humgen/teams".toList]
        (collectionOf line "???".toList) := by
  constructor
  · rintro ⟨p, hmem, hp⟩
    refine ⟨p, hmem, collectionOf_keeps line '?' ['?', '?'] p hp ?_⟩
    simp only [List.mem_cons, List.mem_singleton, List.not_mem_nil, or_false] at hmem
    rcases hmem with rfl | rfl <;> decide
  · rintro ⟨p, hmem, hp⟩
    exact ⟨p, hmem, hp.trans (collectionOf_isPrefix line '?' ['?', '?'])⟩

/-- C18: with the delimiter and the two prefixes that `main` fixes, a line
starts with one of the prefixes exactly when its collection field starts with
that prefix, and every line the tool writes is the row of an input line
after the header whose collection field starts with one of the two prefixes. -/
theorem main_prefix_on_collection :
    (∀ line p, p ∈ ["/humgen/projects".toList, "/humgen/teams".toList] →
      (p <+: line ↔ p <+: collectionOf line "???".toList)) ∧
    (∀ infile outfileOk groupsfile, ∀ o ∈ (main infile outfileOk groupsfile).out,
      ∃ lines groups l row, infile = some lines ∧ groupsfile = some groups ∧
        l ∈ lines.tail ∧
        startsWithOneOf ["/humgen/projects".toList, "/humgen/teams".toList]
          (collectionOf l "???".toList) ∧
        processLine l "???".toList (groupsLoop groups fun _ => none) = .ok row ∧
        o = row ++ "\n".toList) := by
  constructor
  · intro line p hmem
    constructor
    · intro hp
      refine collectionOf_keeps line '?' ['?', '?'] p hp ?_
      simp only [List.mem_cons, List.mem_singleton, List.not_mem_nil, or_false] at hmem
      rcases hmem with rfl | rfl <;> decide
    · intro hp
      exact hp.trans (collectionOf_isPrefix line '?' ['?', '?'])
  · intro infile outfileOk groupsfile o ho
    obtain ⟨lines, groups, l, row, hin, hg, hl, hml, hrow, ho'⟩ :=
      FormatFile_out_mem infile outfileOk groupsfile "???".toList
        ["/humgen/projects".toList, "/humgen/teams".toList] o ho
    exact ⟨lines, groups, l, row, hin, hg, hl, (startsWithOneOf_main_iff l).1 hml, hrow, ho'⟩

/-- A line of the tool's input format under `/humgen/teams`, through the
theorem of C18: the prefix holds of the line and of its collection field. -/
theorem main_prefix_on_collection_witness :
    "/humgen/teams".toList <+: "/humgen/teams/t1???f.txt???1???2".toList ∧
    "/humgen/teams".toList <+: collectionOf "/humgen/teams/t1???f.txt???1???2".toList
      "???".toList ∧
    collectionOf "/humgen/teams/t1???f.txt???1???2".toList "???".toList =
      "/humgen/teams/t1".toList :=
  ⟨by decide,
   (main_prefix_on_collection.1 "/humgen/teams/t1???f.txt???1???2".toList
      "/humgen/teams".toList (by decide)).1 (by decide),
   by decide⟩

/-- C11 fails on the code: with the delimiter `>>` and the prefix
`/humgen/projects>>`, the line `/humgen/projects>>file.txt>>1>>2` starts with
the prefix and gets its row, while its collection field, `/humgen/projects`,
starts with none of the prefixes. -/
theorem FormatFile_row_outside_prefixes :
    (FormatFile (some ["h".toList, "/humgen/projects>>file.txt>>1>>2".toList]) true (some [])
      ">>".toList ["/humgen/projects>>".toList]).err = none ∧
    (FormatFile (some ["h".toList, "/humgen/projects>>file.txt>>1>>2".toList]) true (some [])
      ">>".toList ["/humgen/projects>>".toList]).out.length = 1 ∧
    collectionOf "/humgen/projects>>file.txt>>1>>2".toList ">>".toList =
      "/humgen/projects".toList ∧
    ¬ startsWithOneOf ["/humgen/projects>>".toList]
      (collectionOf "/humgen/projects>>file.txt>>1>>2".toList ">>".toList) := by
  refine ⟨?_, ?_, ?_, ?_⟩ <;> decide

/-! ## Runs of the first FormatFile -/

theorem IRods_formatLoop_header (delimiter : Str) (groupsMap : GroupsMap) (line : Str)
    (rest : List Str) (out : List Str) :
    IRods.formatLoop delimiter groupsMap (line :: rest) 0 out =
      IRods.formatLoop delimiter groupsMap rest 1 out := by
  rw [IRods.formatLoop]
  simp

theorem IRods_formatLoop_ok (delimiter : Str) (groupsMap : GroupsMap) (line : Str)
    (rest : List Str) (lineNo : Nat) (out : List Str) (row : Str) (hno : lineNo ≠ 0)
    (hrow : IRods.processLine line delimiter groupsMap = .ok row) :
    IRods.formatLoop delimiter groupsMap (line :: rest) lineNo out =
      IRods.formatLoop delimiter groupsMap rest (lineNo + 1) (out ++ [row ++ "\n".toList]) := by
  rw [IRods.formatLoop]
  simp [hno, hrow]

theorem IRods_formatLoop_all (delimiter : Str) (groupsMap : GroupsMap) (lines : List Str)
    (lineNo : Nat) (out : List Str) (hno : lineNo ≠ 0)
    (hwf : ∀ l ∈ lines, ¬ (Split l delimiter).length < 4) :
    ∃ rows, List.Forall₂ (rowOfFirst delimiter groupsMap) lines rows ∧
      IRods.formatLoop delimiter groupsMap lines lineNo out =
        { err := none, out := out ++ rows.map (fun r => r ++ "\n".toList),
          lineNo := lineNo + lines.length } := by
  induction lines generalizing lineNo out with
  | nil => exact ⟨[], by simp, by simp [IRods.formatLoop]⟩
  | cons line rest ih =>
    obtain ⟨p0, p1, p2, p3, more, hs⟩ := split_of_length _ (hwf line (List.mem_cons_self _ _))
    obtain ⟨row, hrow⟩ : ∃ row, IRods.processLine line delimiter groupsMap = .ok row :=
      ⟨_, IRods_processLine_ok line delimiter groupsMap p0 p1 p2 p3 more hs⟩
    obtain ⟨rows, hrows, hrun⟩ := ih (lineNo + 1) (out ++ [row ++ "\n".toList])
      (Nat.succ_ne_zero _) (fun l hl => hwf l (List.mem_cons_of_mem _ hl))
    refine ⟨row :: rows, List.Forall₂.cons hrow hrows, ?_⟩
    rw [IRods_formatLoop_ok delimiter groupsMap line rest lineNo out row hno hrow, hrun]
    simp only [List.length_cons, List.map_cons, List.append_assoc, List.singleton_append]
    congr 1
    omega

/-- C14: when the three files can be opened and every line after the first
splits into at least 4 fields, the first implementation's FormatFile returns
no error and writes, in input order, one row for each line after the first,
the row `processLine` returns for it, followed by a newline. -/
theorem IRods_FormatFile_ok (lines groups : List Str) (delimiter : Str)
    (hwf : ∀ l ∈ lines.tail, ¬ (Split l delimiter).length < 4) :
    ∃ rows, List.Forall₂ (rowOfFirst delimiter (groupsLoop groups fun _ => none))
        lines.tail rows ∧
      IRods.FormatFile (some lines) true (some groups) delimiter =
        { err := none, out := rows.map (fun r => r ++ "\n".toList),
          lineNo := lines.length } := by
  cases lines with
  | nil => exact ⟨[], by simp, by simp [IRods.FormatFile, IRods.mapProjectsToGroups,
      IRods.formatLoop]⟩
  | cons header rest =>
    obtain ⟨rows, hrows, hrun⟩ := IRods_formatLoop_all delimiter
      (groupsLoop groups fun _ => none) rest 1 [] (by decide) hwf
    refine ⟨rows, hrows, ?_⟩
    simp only [IRods.FormatFile, IRods.mapProjectsToGroups, Bool.not_true, Bool.false_eq_true,
      if_false, IRods_formatLoop_header, hrun]
    simp [Nat.add_comm]

/-- The input of the test, two lines with the delimiter `>>`, through the
theorem of C14: no error, and one row, for the second line. -/
theorem IRods_FormatFile_ok_witness :
    ∃ rows, List.Forall₂ (rowOfFirst ">>".toList (groupsLoop [] fun _ => none))
        ["aaaaa/project/xx/vv>>bbbb>>cccc>>dddd".toList,
          "aaaaax>>bbbbx>>ccccx>>ddddx".toList].tail rows ∧
      IRods.FormatFile (some ["aaaaa/project/xx/vv>>bbbb>>cccc>>dddd".toList,
          "aaaaax>>bbbbx>>ccccx>>ddddx".toList]) true (some []) ">>".toList =
        { err := none, out := rows.map (fun r => r ++ "\n".toList),
          lineNo := ["aaaaa/project/xx/vv>>bbbb>>cccc>>dddd".toList,
            "aaaaax>>bbbbx>>ccccx>>ddddx".toList].length } :=
  IRods_FormatFile_ok ["aaaaa/project/xx/vv>>bbbb>>cccc>>dddd".toList,
    "aaaaax>>bbbbx>>ccccx>>ddddx".toList] [] ">>".toList (by decide)

end IRodsReport
